import Mathlib

set_option autoImplicit false

/-!
Verification development for the MCP connector core of this repository:
the protocol client (mcp_sdk_client.ts), the execution bridge
(execute_tool.ts), the schema bridge (schema_converter.ts) and the
capability reconciler (the postSave hook createAgentBuilderTools).

JavaScript values flowing through these functions are modelled by the

inductive type Jx (JSON trees; the JS value undefined is modelled as
Option.none where it can be observed, and JSON.parse is passed in as an
explicit function parameter since it is a host builtin).
-/

/-- Model of a JSON value as handled by the TypeScript source. -/
inductive Jx where
  | null
  | bool (b : Bool)
  | num (n : Int)
  | str (s : String)
  | arr (elems : List Jx)
  | obj (fields : List (String × Jx))

/-- Field lookup, modelling JS property access on a value that is known
not to throw: an object yields its first binding for the key, any
non-object (including via optional chaining on null) yields undefined. -/
def Jx.fieldOpt : Jx → String → Option Jx
  | .obj fs, k => (fs.find? (fun p => p.fst == k)).map Prod.snd
  | _, _ => none

/-- Model of the JS expression (k in v): true when an object has the
field, false on objects and arrays without it, and a TypeError
(modelled as an error) when v is a primitive or null. -/
def jsInCheck : Jx → String → Except Unit Bool
  | .obj fs, k => .ok (fs.any (fun p => p.fst == k))
  | .arr _, _ => .ok false
  | _, _ => .error ()

/-- Model of the JS expression (v.k in a boolean position) restricted to
objects and arrays, used after a jsInCheck has succeeded. -/
def Jx.hasField : Jx → String → Bool
  | .obj fs, k => fs.any (fun p => p.fst == k)
  | _, _ => false

/-- JS truthiness of a value. -/
def Jx.truthy : Jx → Bool
  | .null => false
  | .bool b => b
  | .num n => n != 0
  | .str s => s != ""
  | .arr _ => true
  | .obj _ => true

mutual

/-- Model of the JS String(v) / toString conversion used on response
bodies and content blocks (arrays join their elements with commas and
render null elements as empty, plain objects print as
[object Object]). -/
def jsToString : Jx → String
  | .null => "null"
  | .bool b => if b then "true" else "false"
  | .num n => toString n
  | .str s => s
  | .arr elems => String.intercalate "," (jsToStringList elems)
  | .obj _ => "[object Object]"

/-- Elementwise toString over an array, with the join convention that a
null element renders as the empty string. -/
def jsToStringList : List Jx → List String
  | [] => []
  | .null :: rest => "" :: jsToStringList rest
  | v :: rest => jsToString v :: jsToStringList rest

end

mutual

/-- Model of JSON.stringify (compact; the pretty-printing indentation
argument used at one call site is not observable by any claim). -/
def stringifyJx : Jx → String
  | .null => "null"
  | .bool b => if b then "true" else "false"
  | .num n => toString n
  | .str s => "\"" ++ s ++ "\""
  | .arr elems => "[" ++ String.intercalate "," (stringifyJxList elems) ++ "]"
  | .obj fs => "\x7b" ++ String.intercalate "," (stringifyJxFields fs) ++ "\x7d"

/-- Elementwise JSON.stringify over an array. -/
def stringifyJxList : List Jx → List String
  | [] => []
  | v :: rest => stringifyJx v :: stringifyJxList rest

/-- Fieldwise JSON.stringify over an object. -/
def stringifyJxFields : List (String × Jx) → List String
  | [] => []
  | p :: rest => ("\"" ++ p.fst ++ "\":" ++ stringifyJx p.snd) :: stringifyJxFields rest

end

/-- Whether a character list starts with the given pattern. -/
def charsStartWith : List Char → List Char → Bool
  | _, [] => true
  | [], _ :: _ => false
  | c :: cs, p :: ps => c == p && charsStartWith cs ps

/-- Whether a character list contains the pattern as a contiguous run. -/
def charsContains (pat : List Char) : List Char → Bool
  | [] => charsStartWith [] pat
  | c :: cs => charsStartWith (c :: cs) pat || charsContains pat cs

/-- Substring test, modelling JS String.prototype.includes. -/
def strContains (s pat : String) : Bool := charsContains pat.data s.data

/-- Whether a string starts with the given pattern. -/
def strStartsWith (s pat : String) : Bool := charsStartWith s.data pat.data

/-- Whether a string trims to empty (every character is whitespace),
modelling a JS trim-and-compare-to-empty check. -/
def strIsBlank (s : String) : Bool := s.data.all (fun c => c.isWhitespace)

/-- Splitting a character list at every newline character. -/
def splitOnNewline : List Char → List (List Char)
  | [] => [[]]
  | c :: cs =>
      match splitOnNewline cs with
      | [] => if c == (Char.ofNat 10) then [[], []] else [[c]]
      | l :: ls => if c == (Char.ofNat 10) then [] :: l :: ls else (c :: l) :: ls

/-- Removal of one trailing carriage return. -/
def stripCr (l : List Char) : List Char :=
  match l.getLast? with
  | some c => if c == (Char.ofNat 13) then l.dropLast else l
  | none => l

/-- Carriage-return stripping for every piece that was followed by a
newline (every piece but the last). -/
def stripCrs : List (List Char) → List (List Char)
  | [] => []
  | [l] => [l]
  | l :: ls => stripCr l :: stripCrs ls

/-- Splitting a body on the regular expression matching a newline with
an optional preceding carriage return, as the source does. -/
def splitLines (s : String) : List String :=
  (stripCrs (splitOnNewline s.data)).map (fun l => String.mk l)

/-- JS String.prototype.trimStart on the payload of a data: line. -/
def strTrimStart (s : String) : String :=
  String.mk (s.data.dropWhile (fun c => c.isWhitespace))

/-- One step of the SSE scan loop of mcp_sdk_client.ts: data: lines are
accumulated, a blank line flushes the accumulated block into the
last-block slot, other lines are ignored. -/
def ssePush (acc : List String × Option String) (line : String) : List String × Option String :=
  if strStartsWith line "data:" then
    (acc.1 ++ [strTrimStart (String.mk (line.data.drop 5))], acc.2)
  else if strIsBlank line then
    if acc.1.length > 0 then ([], some (String.intercalate "\n" acc.1)) else acc
  else acc

/-- The last complete data: block of an SSE-framed body, if any (an
unterminated trailing block also counts, as in the source). -/
def lastDataBlock (text : String) : Option String :=
  let st := (splitLines text).foldl ssePush ([], none)
  if st.1.length > 0 then some (String.intercalate "\n" st.1) else st.2

/-- An HTTP response body as the axios layer hands it to the client:
either an already-parsed JSON value or a raw string. -/
inductive Body where
  | jval (v : Jx)
  | text (s : String)

/-- The raw-text view of a body, modelling result.toString(). -/
def Body.asText : Body → String
  | .jval v => jsToString v
  | .text s => s

/-- The JSON-value view of a body when no SSE handling applies. -/
def Body.asJx : Body → Jx
  | .jval v => v
  | .text s => .str s

/-- The SSE-detection condition of mcp_sdk_client.ts: content type
mentions text/event-stream, or the body is a string containing a
data: marker. -/
def isSse (contentType : String) (b : Body) : Bool :=
  strContains (String.mk (contentType.data.map Char.toLower)) "text/event-stream" ||
    (match b with
     | .text s => strContains s "data:"
     | .jval _ => false)

/-- Error taxonomy of the protocol client steps. -/
inductive McpErr where
  | invalidSsePayload
  | emptySsePayload
  | typeError
  | rpcError
deriving Repr, DecidableEq

/-- SSE demultiplexing shared by the initialize and tools/list handlers
of mcp_sdk_client.ts: when the response is SSE-framed, the last
complete data: block is parsed as JSON (jparse models JSON.parse);
with no block the step fails with an empty-payload error, with an
unparseable last block it fails with an invalid-payload error. A
non-SSE response passes through as its JSON value. -/
def sseDemux (jparse : String → Option Jx) (contentType : String) (b : Body) : Except McpErr Jx :=
  if isSse contentType b then
    match lastDataBlock b.asText with
    | some blockStr =>
        match jparse blockStr with
        | some v => .ok v
        | none => .error .invalidSsePayload
    | none => .error .emptySsePayload
  else .ok b.asJx

/-- Whether a JSON-RPC message carries the id of the outbound request
(request ids generated by the client are strings). -/
def idMatches (reqId : String) (r : Jx) : Bool :=
  match r.fieldOpt "id" with
  | some (.str s) => s == reqId
  | _ => false

/-- Whether a value is the JS null (property access on it throws). -/
def Jx.isNull : Jx → Bool
  | .null => true
  | _ => false

/-- The find part of the batch demux loop: JS property access r.id
throws on a null element, so the scan fails there; otherwise the first
message whose id matches is returned. -/
def findMatching (reqId : String) : List Jx → Except McpErr (Option Jx)
  | [] => .ok none
  | r :: rest =>
      if r.isNull then .error .typeError
      else if idMatches reqId r then .ok (some r)
      else findMatching reqId rest

/-- Batch demux shared by all three handlers: an array response is
resolved to the entry whose id matches the request id, falling back to
the first element; a non-array passes through. An empty array resolves
to undefined, which the following field check turns into a TypeError,
so it is modelled by null here (observationally equal). -/
def batchSelect (reqId : String) (r0 : Jx) : Except McpErr Jx :=
  match r0 with
  | .arr xs => do
      match (← findMatching reqId xs) with
      | some r => pure r
      | none => pure ((xs.head?).getD Jx.null)
  | _ => pure r0

/-- The JSON-RPC error check: a TypeError if the selected message is a
primitive, an rpc error if it has a truthy error field. -/
def rpcErrCheck (sel : Jx) : Except McpErr Unit :=
  match jsInCheck sel "error" with
  | .error _ => .error .typeError
  | .ok has =>
      if has && (match sel.fieldOpt "error" with
                 | some ev => ev.truthy
                 | none => false) then .error .rpcError
      else .ok ()

/-- Constants imported by the source from the MCP TypeScript SDK
(types.js); the SDK is an external dependency, so its two
protocol-version constants are reproduced here. -/
def DEFAULT_NEGOTIATED_PROTOCOL_VERSION : String := "2025-03-26"

/-- Supported protocol versions from the MCP TypeScript SDK; the set
contains the default negotiated version. -/
def SUPPORTED_PROTOCOL_VERSIONS : List String :=
  ["2025-06-18", "2025-03-26", "2024-11-05", "2024-10-07"]

/-- Connection state owned by one McpSdkClient instance. -/
structure ClientState where
  protocolVersion : String
  initialized : Bool
  sessionId : Option String
deriving Repr, DecidableEq

/-- State of a freshly constructed client. -/
def freshClient : ClientState :=
  { protocolVersion := DEFAULT_NEGOTIATED_PROTOCOL_VERSION
    initialized := false
    sessionId := none }

/-- An HTTP response as observed by one request: content type header,
body, and the optional mcp-session-id header. -/
structure HttpResponse where
  contentType : String
  body : Body
  sessionId : Option String

/-- The demux pipeline of the initialize and tools/list handlers:
SSE demux, then batch selection. -/
def demuxSelect (jparse : String → Option Jx) (reqId : String) (contentType : String) (b : Body) :
    Except McpErr Jx := do
  let r0 ← sseDemux jparse contentType b
  batchSelect reqId r0

/-- The version-negotiation step of initialize: the server version is
adopted only when it is a member of the supported set; otherwise the
current (default) version is kept and a warning is logged (the Bool
output records that the warning fired). -/
def adoptVersion (cur : String) (sel : Jx) : String × Bool :=
  match (sel.fieldOpt "result").bind (fun rv => rv.fieldOpt "protocolVersion") with
  | some v =>
      if v.truthy then
        match v with
        | .str s =>
            if SUPPORTED_PROTOCOL_VERSIONS.contains s then (s, false) else (cur, true)
        | _ => (cur, true)
      else (cur, false)
  | none => (cur, false)

/-- Session-header persistence: the header is stored only when present
and truthy (a non-empty string). -/
def applySession (st : ClientState) (hdr : Option String) : ClientState :=
  match hdr with
  | some s => if s = "" then st else { st with sessionId := some s }
  | none => st

/-- The initialize handler of McpSdkClient as a state transition on one
observed response: a no-op when already initialized; otherwise SSE and
batch demux, JSON-RPC error check, version negotiation, session-header
capture, and the initialized flag is set. Errors leave the state
unchanged (the source mutates its fields only after every throw
point). The Bool output records the unsupported-version warning. -/
def initHandshake (jparse : String → Option Jx) (st : ClientState) (reqId : String)
    (resp : HttpResponse) : Except McpErr (ClientState × Bool) :=
  if st.initialized then .ok (st, false)
  else do
    let sel ← demuxSelect jparse reqId resp.contentType resp.body
    rpcErrCheck sel
    let vr := adoptVersion st.protocolVersion sel
    let st1 := applySession { st with protocolVersion := vr.1 } resp.sessionId
    pure ({ st1 with initialized := true }, vr.2)

/-- Extraction of the tools payload in the tools/list handler:
result.result when present (else the message itself), then its tools
field when truthy, else the value itself when it is an array, else an
empty array. -/
def extractTools (sel : Jx) : Jx :=
  let toolsResult : Jx := if sel.hasField "result" then (sel.fieldOpt "result").getD Jx.null else sel
  let fallback : Jx := match toolsResult with
    | .arr xs => .arr xs
    | _ => .arr []
  match toolsResult.fieldOpt "tools" with
  | some t => if t.truthy then t else fallback
  | none => fallback

/-- The response processing of one tools/list attempt (the doList inner
function): same SSE and batch demux as initialize, JSON-RPC error
check, then tools extraction. -/
def listToolsStep (jparse : String → Option Jx) (reqId : String) (resp : HttpResponse) :
    Except McpErr Jx := do
  let sel ← demuxSelect jparse reqId resp.contentType resp.body
  rpcErrCheck sel
  pure (extractTools sel)

/-- The response processing of the tools/call handler: the source
performs NO SSE handling here — the body is used directly, then batch
selection, error check, and the result field (null when absent). -/
def callToolStep (reqId : String) (resp : HttpResponse) : Except McpErr Jx := do
  let sel ← batchSelect reqId resp.body.asJx
  rpcErrCheck sel
  pure (if sel.hasField "result" then (sel.fieldOpt "result").getD Jx.null else Jx.null)

/-- Outcome of the actionsClient.execute call inside executeMcpTool:
the awaited promise either rejects (thrown), resolves with an error
status, or resolves with a data payload. -/
inductive ActionOutcome where
  | thrown (msg : String)
  | errStatus (msg : Option String)
  | okData (data : Jx)

/-- Result representation of the execution bridge: either the typed
error result produced by createErrorResult (carrying connector id and
tool name as metadata) or the success result whose data carries the
normalized content together with the same metadata. -/
inductive ToolHandlerResult where
  | errorResult (message : String) (connectorId : String) (toolName : String)
  | other (content : String) (toolName : String) (connectorId : String)

/-- Conversion of one content block: the text field for text blocks
(joined with JS join semantics, so a null or missing text renders
empty), JSON serialization otherwise; JS property access throws on a
null block, which the surrounding catch converts. -/
def itemTextE : Jx → Except Unit String
  | .null => .error ()
  | item =>
      match item.fieldOpt "type" with
      | some (.str t) =>
          if t = "text" then
            .ok (match item.fieldOpt "text" with
                 | some .null => ""
                 | some v => jsToString v
                 | none => "")
          else .ok (stringifyJx item)
      | _ => .ok (stringifyJx item)

/-- Elementwise block conversion, stopping at the first throwing
block. -/
def itemTextsE : List Jx → Except Unit (List String)
  | [] => .ok []
  | item :: rest => do
      let s ← itemTextE item
      let ss ← itemTextsE rest
      .ok (s :: ss)

/-- Normalization of the tools/call result payload by executeMcpTool:
a truthy content list is converted blockwise and joined by newlines, a
truthy non-list content is stringified with String(), anything else
(including falsy content) serializes the whole payload as JSON. -/
def normalizeContent (data : Jx) : Except Unit String :=
  match data.fieldOpt "content" with
  | some c =>
      if c.truthy then
        match c with
        | .arr items => do
            let texts ← itemTextsE items
            .ok (String.intercalate "\n" texts)
        | _ => .ok (jsToString c)
      else .ok (stringifyJx data)
  | none => .ok (stringifyJx data)

/-- Message selection for an error status, modelling
(result.message or the Unknown error fallback) with JS truthiness. -/
def errStatusMessage (msg : Option String) : String :=
  match msg with
  | some m => if m = "" then "Unknown error" else m
  | none => "Unknown error"

/-- The executeMcpTool function of the execution bridge: every failure
path (rejected execute call, error status, TypeError during content
normalization) produces a typed error result carrying the connector id
and tool name; the function never exposes a thrown exception. -/
def executeMcpTool (connectorId toolName : String) (outcome : ActionOutcome) :
    List ToolHandlerResult :=
  match outcome with
  | .thrown msg =>
      [.errorResult ("Error executing MCP tool: " ++ msg) connectorId toolName]
  | .errStatus msg =>
      [.errorResult ("MCP tool execution failed: " ++ errStatusMessage msg) connectorId toolName]
  | .okData data =>
      match normalizeContent data with
      | .ok content => [.other content toolName connectorId]
      | .error _ =>
          [.errorResult "Error executing MCP tool: TypeError" connectorId toolName]

/-- Whether an outcome is one of the failure cases named by the
error-handling claim. -/
def isErrorOutcome : ActionOutcome → Bool
  | .thrown _ => true
  | .errStatus _ => true
  | .okData _ => false

/-- Metadata carried by a bridge result. -/
def resultMeta : ToolHandlerResult → String × String
  | .errorResult _ c t => (c, t)
  | .other _ t c => (c, t)

/-- Input schema shape received by the schema bridge
convertMcpSchemaToZod (property values are arbitrary JSON supplied by
the remote server). -/
structure McpInputSchema where
  schemaType : String
  properties : Option (List (String × Jx))
  required : Option (List String)

/-- Element validators producible for array properties. -/
inductive ZodElem where
  | zeStr
  | zeNum
  | zeBool
  | zeAny
deriving Repr, DecidableEq

/-- Base validators producible by the schema bridge. -/
inductive ZodBase where
  | zString
  | zNumber
  | zBoolean
  | zArray (elem : ZodElem)
  | zRecordAny
  | zAny
deriving Repr, DecidableEq

/-- One field of the produced object validator: base validator, the
attached description when present and truthy, and optionality. -/
structure ZodField where
  base : ZodBase
  description : Option Jx
  optional : Bool

/-- Conversion of a single property by convertMcpSchemaToZod. JS
property access prop.type throws a TypeError when the property value
is null; otherwise the switch maps the supported type names, arrays
refine on items.type, and every other shape degrades to an
accept-anything validator. -/
def convertProp (required : Option (List String)) (key : String) (prop : Jx) :
    Except Unit ZodField :=
  match prop with
  | .null => .error ()
  | _ =>
      let base : ZodBase :=
        match prop.fieldOpt "type" with
        | some (.str t) =>
            if t = "string" then .zString
            else if t = "number" ∨ t = "integer" then .zNumber
            else if t = "boolean" then .zBoolean
            else if t = "array" then
              match (prop.fieldOpt "items").bind (fun it => it.fieldOpt "type") with
              | some (.str it) =>
                  if it = "string" then .zArray .zeStr
                  else if it = "number" ∨ it = "integer" then .zArray .zeNum
                  else if it = "boolean" then .zArray .zeBool
                  else .zArray .zeAny
              | _ => .zArray .zeAny
            else if t = "object" then .zRecordAny
            else .zAny
        | _ => .zAny
      let desc : Option Jx :=
        match prop.fieldOpt "description" with
        | some d => if d.truthy then some d else none
        | none => none
      let isReq : Bool :=
        match required with
        | some req => req.contains key
        | none => false
      .ok { base := base, description := desc, optional := !isReq }

/-- Conversion of the property list in declaration order. -/
def convertProps (required : Option (List String)) :
    List (String × Jx) → Except Unit (List (String × ZodField))
  | [] => .ok []
  | kv :: rest => do
      let f ← convertProp required kv.fst kv.snd
      let fs ← convertProps required rest
      .ok ((kv.fst, f) :: fs)

/-- The schema bridge convertMcpSchemaToZod: a top-level type other
than object yields the empty object validator; otherwise each declared
property is converted in order (a null property value raises a
TypeError, modelled as the error case). -/
def convertMcpSchemaToZod (s : McpInputSchema) : Except Unit (List (String × ZodField)) :=
  if s.schemaType ≠ "object" then .ok []
  else
    match s.properties with
    | none => .ok []
    | some props => convertProps s.required props

/-- Whether a non-null property value declares a type outside the set
the bridge supports (including a missing or non-string type). -/
def unsupportedPropType (prop : Jx) : Bool :=
  match prop.fieldOpt "type" with
  | some (.str t) =>
      !(["string", "number", "integer", "boolean", "array", "object"].contains t)
  | _ => true

/-- A tool entry of the onechat registry as observed by the postSave
hook: its id, whether its type is ToolType.mcp, and the connector_id
and tool_name fields of its configuration (absent configuration or
fields are modelled by none). -/
structure RegistryTool where
  id : String
  isMcp : Bool
  connector : Option String
  toolName : Option String
deriving Repr, DecidableEq

/-- The association filter used twice by createAgentBuilderTools: an
mcp-typed tool whose configuration names this connector. -/
def isAssociated (cid : String) (t : RegistryTool) : Bool :=
  t.isMcp && t.connector == some cid

/-- Shared mutable state touched by one reconciliation pass: the tool
registry, the created_tool_ids list recorded on the connector config,
and the process-wide in-progress connector set. -/
structure World where
  registry : List RegistryTool
  createdToolIds : List String
  inProgress : List String
deriving Repr, DecidableEq

/-- Parameters of one postSave invocation. -/
structure PassParams where
  connectorId : String
  url : String
  selectedTools : Option (List String)
  wasSuccessful : Bool

/-- Failure injection for the awaited port calls of one pass:
registryFails models a throw from getRegistry or the first
registry.list (uncaught by the pass, so it propagates after the
finally block); deleteFails and createFails model per-item failures
(each caught and logged); actionsAvailable models the early return
when the actions plugin start is missing; configFails models any throw
inside the persist-config block (caught and logged). -/
structure Oracle where
  registryFails : Bool
  deleteFails : String → Bool
  createFails : String → Bool
  actionsAvailable : Bool
  configFails : Bool

/-- Observable operations of one pass, in execution order. -/
inductive RegOp where
  | del (id : String)
  | delFailed (id : String)
  | created (id : String)
  | createFailed (id : String)
  | wroteIds (ids : List String)
deriving Repr, DecidableEq

/-- JS Set construction order: first occurrence of each element. -/
def dedupFirstAux (seen : List String) : List String → List String
  | [] => []
  | x :: xs =>
      if seen.contains x then dedupFirstAux seen xs
      else x :: dedupFirstAux (x :: seen) xs

/-- Deduplication keeping first occurrences, as iterating a JS Set or
Array.from(new Set(l)) does. -/
def dedupFirst (l : List String) : List String := dedupFirstAux [] l

/-- JS Map.prototype.set semantics on an insertion-ordered association
list: an existing key keeps its position and gets the new value, a new
key is appended. -/
def mapSet (m : List (String × String)) (k v : String) : List (String × String) :=
  if m.any (fun p => p.fst == k) then m.map (fun p => if p.fst == k then (k, v) else p)
  else m ++ [(k, v)]

/-- The existingByName map loop of the pass: tools are scanned in
registry order and entered under their tool_name when that name is
truthy (non-empty); m is the map built so far. -/
def buildByName (m : List (String × String)) : List RegistryTool → List (String × String)
  | [] => m
  | t :: rest =>
      match t.toolName with
      | some n => if n = "" then buildByName m rest else buildByName (mapSet m n t.id) rest
      | none => buildByName m rest

/-- The ids scheduled for deletion: map entries whose name is not in
the desired selection, in map insertion order. -/
def toDeleteIds (m : List (String × String)) (desired : List String) : List String :=
  (m.filter (fun p => !desired.contains p.fst)).map Prod.snd

/-- The capability names scheduled for creation: desired names not
present in the map, in selection (set-iteration) order. -/
def toCreateNames (m : List (String × String)) (desired : List String) : List String :=
  desired.filter (fun n => !(m.any (fun p => p.fst == n)))

/-- The deterministic local id of a created tool. -/
def localToolId (ns toolName : String) : String := "mcp." ++ ns ++ "." ++ toolName

/-- The registry entry created for a selected capability. -/
def newTool (cid tid name : String) : RegistryTool :=
  { id := tid, isMcp := true, connector := some cid, toolName := some name }

/-- The delete loop: each id is attempted in order; a failing delete is
logged and skipped, a succeeding one removes the identified tool. -/
def applyDeletes (orc : Oracle) (reg : List RegistryTool) :
    List String → List RegistryTool × List RegOp
  | [] => (reg, [])
  | tid :: rest =>
      if orc.deleteFails tid then
        let r := applyDeletes orc reg rest
        (r.1, RegOp.delFailed tid :: r.2)
      else
        let r := applyDeletes orc (reg.filter (fun t => t.id != tid)) rest
        (r.1, RegOp.del tid :: r.2)

/-- The create loop: each name is attempted in order with its derived
local id; a failing create is logged and skipped, a succeeding one
appends the new registry entry. -/
def applyCreates (orc : Oracle) (cid ns : String) (reg : List RegistryTool) :
    List String → List RegistryTool × List RegOp
  | [] => (reg, [])
  | n :: rest =>
      let tid := localToolId ns n
      if orc.createFails tid then
        let r := applyCreates orc cid ns reg rest
        (r.1, RegOp.createFailed tid :: r.2)
      else
        let r := applyCreates orc cid ns (reg ++ [newTool cid tid n]) rest
        (r.1, RegOp.created tid :: r.2)

/-- The ids of the tools associated with the connector, in registry
order. -/
def assocIds (cid : String) (reg : List RegistryTool) : List String :=
  (reg.filter (isAssociated cid)).map (fun t => t.id)

/-- The change test before the config write: the merged list differs
from the recorded one in length, or contains an id the recorded one
lacks. -/
def needUpdate (merged recorded : List String) : Bool :=
  merged.length != recorded.length || merged.any (fun i => !recorded.contains i)

/-- The persist-config block of the pass: skipped when the actions
start contract is unavailable or any call in the block throws;
otherwise the recorded id list is replaced by the deduplicated union
of the previously recorded ids and the ids of the currently associated
tools, but only when that union differs from the recorded list. -/
def configStep (orc : Oracle) (cid : String) (reg : List RegistryTool)
    (recorded : List String) : List String × List RegOp :=
  if !orc.actionsAvailable then (recorded, [])
  else if orc.configFails then (recorded, [])
  else
    let finalIds := dedupFirst (assocIds cid reg)
    let mergedIds := dedupFirst (recorded ++ finalIds)
    if needUpdate mergedIds recorded then (mergedIds, [RegOp.wroteIds mergedIds])
    else (recorded, [])

/-- The early-return condition of the postSave hook: unsuccessful
save, or an absent or empty selected_tools list. -/
def guardSkip (p : PassParams) : Bool :=
  !p.wasSuccessful ||
    (match p.selectedTools with
     | none => true
     | some l => l.isEmpty)

/-- The createAgentBuilderTools postSave hook as a state transition.
The result is the new world, the operations performed in order, and
whether an exception propagated out of the pass (only a registry
listing failure does; the finally block releases the in-progress guard
on that path too, which the erase on the consed list models). ns
models the pure url-to-namespace derivation (snakeCase of
deriveServerName), applied to the saved config url. -/
def createAgentBuilderTools (ns : String → String) (orc : Oracle) (p : PassParams)
    (w : World) : World × List RegOp × Bool :=
  if guardSkip p then (w, [], false)
  else if w.inProgress.contains p.connectorId then (w, [], false)
  else
    let inProg := p.connectorId :: w.inProgress
    let namespaceStr := ns p.url
    if orc.registryFails then
      ({ w with inProgress := inProg.erase p.connectorId }, [], true)
    else
      let sel := p.selectedTools.getD []
      let desired := dedupFirst sel
      let existingAssoc := w.registry.filter (isAssociated p.connectorId)
      let byName := buildByName [] existingAssoc
      let dels := toDeleteIds byName desired
      let crts := toCreateNames byName desired
      let dres := applyDeletes orc w.registry dels
      let cres := applyCreates orc p.connectorId namespaceStr dres.1 crts
      let wres := configStep orc p.connectorId cres.1 w.createdToolIds
      ({ registry := cres.1, createdToolIds := wres.1, inProgress := inProg.erase p.connectorId },
       dres.2 ++ cres.2 ++ wres.2, false)

/-- Registry mutations among the operations of a pass. -/
def isRegistryOp : RegOp → Bool
  | .wroteIds _ => false
  | _ => true

/-- The registry mutations of an operation list, in order. -/
def registryOps (ops : List RegOp) : List RegOp := ops.filter isRegistryOp

/-- The config writes of an operation list, in order. -/
def writeOps (ops : List RegOp) : List RegOp := ops.filter (fun o => !isRegistryOp o)

/-- The name/id pair under which a registry tool would be entered into
the existingByName map (none for a missing or empty tool_name). -/
def namedPair (t : RegistryTool) : Option (String × String) :=
  match t.toolName with
  | some n => if n = "" then none else some (n, t.id)
  | none => none

/-- The name/id pairs of a tool list, in list order. -/
def namedPairs (l : List RegistryTool) : List (String × String) := l.filterMap namedPair

/-- The capability names currently projected for a connector (spec
reading of E: the existing projected tools keyed by capability
name). -/
def projectedNames (w : World) (cid : String) : List String :=
  (namedPairs (w.registry.filter (isAssociated cid))).map Prod.fst

/-- Spec reading of the delete set: the ids of the projected tools
whose capability name is in E but not in the selection. -/
def specToDelete (w : World) (cid : String) (selected : List String) : List String :=
  ((namedPairs (w.registry.filter (isAssociated cid))).filter
    (fun q => !selected.contains q.fst)).map Prod.snd

/-- Spec reading of the create set: the selected capability names not
in E. -/
def specToCreate (w : World) (cid : String) (selected : List String) : List String :=
  (dedupFirst selected).filter (fun n => !(projectedNames w cid).contains n)

/-- Whether a registry tool carries a non-empty tool_name. -/
def hasNonemptyName (t : RegistryTool) : Bool :=
  match t.toolName with
  | some n => n != ""
  | none => false

/-- Registry well-formedness for one connector: ids are unique, the
projected capability names are unique, and every associated tool has a
non-empty tool_name. -/
def WellFormedFor (w : World) (cid : String) : Prop :=
  (w.registry.map (fun t => t.id)).Nodup ∧
  (projectedNames w cid).Nodup ∧
  ∀ t ∈ w.registry, isAssociated cid t = true → hasNonemptyName t = true

/-- Conditions under which a postSave invocation reaches the guarded
reconciliation body: a successful save with a non-empty selection, no
pass already in flight for this connector, and a registry listing that
does not throw. -/
def EnteredPass (orc : Oracle) (p : PassParams) (w : World) (sel : List String) : Prop :=
  p.wasSuccessful = true ∧ p.selectedTools = some sel ∧ sel ≠ [] ∧
  w.inProgress.contains p.connectorId = false ∧ orc.registryFails = false

/-- Absence of injected per-item registry failures. -/
def NoItemFailures (orc : Oracle) : Prop :=
  (∀ i, orc.deleteFails i = false) ∧ (∀ i, orc.createFails i = false)

/-- The operation recorded for one attempted delete. -/
def delAttempt (orc : Oracle) (tid : String) : RegOp :=
  if orc.deleteFails tid then .delFailed tid else .del tid

/-- The operation recorded for one attempted create. -/
def createAttempt (orc : Oracle) (tid : String) : RegOp :=
  if orc.createFails tid then .createFailed tid else .created tid

/-- Server message announcing an unsupported protocol version, used to
exercise the keep-default branch of version negotiation. -/
def demoInitSel : Jx :=
  Jx.obj [("result", Jx.obj [("protocolVersion", Jx.str "1999-01-01")])]

/-- SSE body with two data blocks, the last announcing the effective
payload. -/
def demoSse : String := "data: alpha\n\ndata: omega\n"

/-- Parsed form of the last data block of demoSse. -/
def demoParsed : Jx :=
  Jx.obj [("id", Jx.str "req_1"), ("result", Jx.obj [("ok", Jx.bool true)])]

/-- JSON.parse stand-in knowing only the last demo block. -/
def demoJparse (s : String) : Option Jx :=
  if s = "omega" then some demoParsed else none

/-- Oracle with no injected failures, used by concrete scenarios. -/
def noFailOracle : Oracle :=
  { registryFails := false
    deleteFails := fun _ => false
    createFails := fun _ => false
    actionsAvailable := true
    configFails := false }

/-- A projected tool of the demo connector, used by concrete scenarios. -/
def demoToolA : RegistryTool :=
  { id := "mcp.srv.a", isMcp := true, connector := some "conn-1", toolName := some "a" }

/-- The delete list computed by an entered pass. -/
def passDels (p : PassParams) (w : World) (sel : List String) : List String :=
  toDeleteIds (buildByName [] (w.registry.filter (isAssociated p.connectorId))) (dedupFirst sel)

/-- The create list computed by an entered pass. -/
def passCrts (p : PassParams) (w : World) (sel : List String) : List String :=
  toCreateNames (buildByName [] (w.registry.filter (isAssociated p.connectorId))) (dedupFirst sel)

/-- Lexicographic character-list order, used to state the ordering
part of the batching claim. -/
def charsLt : List Char → List Char → Bool
  | [], [] => false
  | [], _ :: _ => true
  | _ :: _, [] => false
  | a :: as, b :: bs => if a < b then true else if b < a then false else charsLt as bs

/-- Lexicographic order on strings. -/
def strLexLt (a b : String) : Bool := charsLt a.data b.data

/-- Demo world for the failure-injection witness: two existing
projected tools c and d, selection a, and an oracle whose delete of
the tool c fails. -/
def c5w : World :=
  { registry :=
      [{ id := "mcp.srv.c", isMcp := true, connector := some "conn-1", toolName := some "c" },
       { id := "mcp.srv.d", isMcp := true, connector := some "conn-1", toolName := some "d" }],
    createdToolIds := [], inProgress := [] }

/-- Demo pass parameters for the C5 witness. -/
def c5p : PassParams :=
  { connectorId := "conn-1", url := "u", selectedTools := some ["a"], wasSuccessful := true }

/-- Demo oracle for the C5 witness: deleting the tool c fails. -/
def c5orc : Oracle :=
  { registryFails := false
    deleteFails := fun i => i == "mcp.srv.c"
    createFails := fun _ => false
    actionsAvailable := true
    configFails := false }

/-- Whether a tool carries a capability name that is currently
selected. -/
def nameSelected (sel : List String) (t : RegistryTool) : Bool :=
  match t.toolName with
  | some n => sel.contains n
  | none => false

/-- The associated tools surviving the delete phase of a pass. -/
def keptTools (w : World) (cid : String) (sel : List String) : List RegistryTool :=
  (w.registry.filter (isAssociated cid)).filter (nameSelected sel)

/-- The registry entries appended by the create phase of a pass. -/
def createdTools (cid ns : String) (names : List String) : List RegistryTool :=
  names.map (fun n => newTool cid (localToolId ns n) n)

/-- Pass parameters of the concrete selection {a, b} scenario. -/
def c1p : PassParams :=
  { connectorId := "conn-1", url := "u", selectedTools := some ["a", "b"],
    wasSuccessful := true }

/-- Registry state of the concrete scenario: tools a and c projected. -/
def c1w : World :=
  { registry :=
      [{ id := "mcp.srv.a", isMcp := true, connector := some "conn-1", toolName := some "a" },
       { id := "mcp.srv.c", isMcp := true, connector := some "conn-1", toolName := some "c" }],
    createdToolIds := [], inProgress := [] }

/-- Pass parameters of the deselection scenario: only a selected. -/
def c2p : PassParams :=
  { connectorId := "conn-1", url := "u", selectedTools := some ["a"],
    wasSuccessful := true }

/-- World of the deselection scenario: tool c projected and its id
already recorded on the connector. -/
def c2w : World :=
  { registry :=
      [{ id := "mcp.srv.c", isMcp := true, connector := some "conn-1", toolName := some "c" }],
    createdToolIds := ["mcp.srv.c"], inProgress := [] }

theorem contains_iff_mem (l : List String) (x : String) : l.contains x = true ↔ x ∈ l :=
  List.elem_iff

theorem contains_eq_false_iff (l : List String) (x : String) :
    l.contains x = false ↔ x ∉ l := by
  rw [← Bool.not_eq_true, not_iff_not]
  exact contains_iff_mem l x

theorem mem_dedupFirstAux (seen l : List String) (x : String) :
    x ∈ dedupFirstAux seen l ↔ x ∈ l ∧ x ∉ seen := by
  induction l generalizing seen with
  | nil => simp [dedupFirstAux]
  | cons a as ih =>
      cases h : seen.contains a with
      | true =>
          have ha : a ∈ seen := (contains_iff_mem seen a).mp h
          simp only [dedupFirstAux, h, if_true, ih, List.mem_cons]
          constructor
          · rintro ⟨hx, hs⟩
            exact ⟨Or.inr hx, hs⟩
          · rintro ⟨hx | hx, hs⟩
            · exact absurd (hx ▸ ha) hs
            · exact ⟨hx, hs⟩
      | false =>
          have ha : a ∉ seen := (contains_eq_false_iff seen a).mp h
          simp only [dedupFirstAux, h, Bool.false_eq_true, if_false, List.mem_cons,
            ih (a :: seen), not_or]
          constructor
          · rintro (hx | ⟨hx, hxa, hs⟩)
            · exact ⟨Or.inl hx, hx ▸ ha⟩
            · exact ⟨Or.inr hx, hs⟩
          · rintro ⟨hx | hx, hs⟩
            · exact Or.inl hx
            · by_cases hxa : x = a
              · exact Or.inl hxa
              · exact Or.inr ⟨hx, hxa, hs⟩

theorem mem_dedupFirst (l : List String) (x : String) : x ∈ dedupFirst l ↔ x ∈ l := by
  unfold dedupFirst
  rw [mem_dedupFirstAux]
  simp

theorem dedupFirst_contains (l : List String) (x : String) :
    (dedupFirst l).contains x = l.contains x := by
  by_cases h : x ∈ l
  · rw [(contains_iff_mem _ _).mpr ((mem_dedupFirst l x).mpr h), (contains_iff_mem _ _).mpr h]
  · rw [(contains_eq_false_iff _ _).mpr (fun hm => h ((mem_dedupFirst l x).mp hm)),
        (contains_eq_false_iff _ _).mpr h]

theorem sublist_dedupFirstAux (seen l : List String) :
    List.Sublist (dedupFirstAux seen l) l := by
  induction l generalizing seen with
  | nil => simp [dedupFirstAux]
  | cons a as ih =>
      cases h : seen.contains a with
      | true =>
          simp only [dedupFirstAux, h, if_true]
          exact List.Sublist.cons a (ih seen)
      | false =>
          simp only [dedupFirstAux, h, Bool.false_eq_true, if_false]
          exact List.Sublist.cons₂ a (ih (a :: seen))

theorem nodup_dedupFirstAux (seen l : List String) : (dedupFirstAux seen l).Nodup := by
  induction l generalizing seen with
  | nil => simp [dedupFirstAux]
  | cons a as ih =>
      cases h : seen.contains a with
      | true =>
          simp only [dedupFirstAux, h, if_true]
          exact ih seen
      | false =>
          simp only [dedupFirstAux, h, Bool.false_eq_true, if_false]
          refine List.nodup_cons.mpr ⟨?_, ih (a :: seen)⟩
          intro hmem
          exact ((mem_dedupFirstAux (a :: seen) as a).mp hmem).2 (List.mem_cons_self a seen)

theorem nodup_dedupFirst (l : List String) : (dedupFirst l).Nodup := nodup_dedupFirstAux [] l

theorem dedupFirstAux_eq_self : ∀ l seen : List String, l.Nodup →
    (∀ x ∈ l, x ∉ seen) → dedupFirstAux seen l = l := by
  intro l
  induction l with
  | nil => intro seen _ _; rfl
  | cons a as ih =>
      intro seen hnd hdisj
      have ha : seen.contains a = false :=
        (contains_eq_false_iff seen a).mpr (hdisj a (List.mem_cons_self a as))
      simp only [dedupFirstAux, ha, Bool.false_eq_true, if_false, List.cons.injEq, true_and]
      have hnd' := List.nodup_cons.mp hnd
      refine ih (a :: seen) hnd'.2 ?_
      intro x hx
      simp only [List.mem_cons, not_or]
      exact ⟨fun hxa => hnd'.1 (hxa ▸ hx), hdisj x (List.mem_cons_of_mem a hx)⟩

theorem dedupFirst_eq_self (l : List String) (hnd : l.Nodup) : dedupFirst l = l :=
  dedupFirstAux_eq_self l [] hnd (by simp)

theorem dedupFirstAux_all_seen (seen l : List String) (h : ∀ x ∈ l, x ∈ seen) :
    dedupFirstAux seen l = [] := by
  induction l with
  | nil => rfl
  | cons a as ih =>
      have ha : seen.contains a = true :=
        (contains_iff_mem seen a).mpr (h a (List.mem_cons_self a as))
      simp only [dedupFirstAux, ha, if_true]
      exact ih (fun x hx => h x (List.mem_cons_of_mem a hx))

theorem seenAfter_exists (a : List String) : ∀ seen : List String,
    ∃ seen2 : List String, (∀ x, x ∈ seen2 ↔ x ∈ seen ∨ x ∈ a) ∧
      ∀ b, dedupFirstAux seen (a ++ b) = dedupFirstAux seen a ++ dedupFirstAux seen2 b := by
  induction a with
  | nil =>
      intro seen
      exact ⟨seen, by simp, fun b => by simp [dedupFirstAux]⟩
  | cons x xs ih =>
      intro seen
      cases h : seen.contains x with
      | true =>
          obtain ⟨seen2, hmem, happ⟩ := ih seen
          refine ⟨seen2, ?_, ?_⟩
          · intro y
            rw [hmem y]
            simp only [List.mem_cons]
            constructor
            · rintro (hy | hy)
              · exact Or.inl hy
              · exact Or.inr (Or.inr hy)
            · rintro (hy | hy | hy)
              · exact Or.inl hy
              · exact Or.inl (hy ▸ (contains_iff_mem seen x).mp h)
              · exact Or.inr hy
          · intro b
            simp only [List.cons_append, dedupFirstAux, h, if_true]
            exact happ b
      | false =>
          obtain ⟨seen2, hmem, happ⟩ := ih (x :: seen)
          refine ⟨seen2, ?_, ?_⟩
          · intro y
            rw [hmem y]
            simp only [List.mem_cons]
            tauto
          · intro b
            simp only [List.cons_append, dedupFirstAux, h, Bool.false_eq_true, if_false,
              List.append_eq]
            rw [happ b]

theorem dedupFirst_append_subset (r f : List String) (h : ∀ x ∈ f, x ∈ r) :
    dedupFirst (r ++ f) = dedupFirst r := by
  obtain ⟨seen2, hmem, happ⟩ := seenAfter_exists r []
  unfold dedupFirst
  rw [happ f, dedupFirstAux_all_seen seen2 f
    (fun x hx => (hmem x).mpr (Or.inr (h x hx))), List.append_nil]

theorem findMatching_ok (reqId : String) (xs : List Jx)
    (h : xs.all (fun r => !r.isNull) = true) :
    findMatching reqId xs = .ok (xs.find? (idMatches reqId)) := by
  induction xs with
  | nil => rfl
  | cons r rest ih =>
      rw [List.all_cons] at h
      simp only [Bool.and_eq_true] at h
      obtain ⟨h1, h2⟩ := h
      have hnn : r.isNull = false := by
        cases hr : r.isNull
        · rfl
        · rw [hr] at h1; exact absurd h1 (by simp)
      cases hm : idMatches reqId r with
      | true =>
          rw [List.find?_cons_of_pos _ hm]
          simp [findMatching, hnn, hm]
      | false =>
          rw [List.find?_cons_of_neg _ (by simp [hm])]
          simp [findMatching, hnn, hm, ih h2]

/-- C6: for an array response, the client selects the entry whose id
equals the outbound client-generated request id; only when no entry
matches does it fall back to the first element (conjuncts 2 and 3
characterize the selected entry), so id correlation is authoritative
over array order; the last conjunct is the concrete two-element
scenario where only the second entry matches and its result field is
returned by the tools/call handler. -/
theorem c6_batch_id_correlation (reqId : String) (xs : List Jx)
    (h : xs.all (fun r => !r.isNull) = true) :
    batchSelect reqId (Jx.arr xs) =
      .ok (match xs.find? (idMatches reqId) with
           | some r => r
           | none => (xs.head?).getD Jx.null) ∧
    (∀ r, xs.find? (idMatches reqId) = some r → idMatches reqId r = true ∧ r ∈ xs) ∧
    (xs.find? (idMatches reqId) = none → ∀ r ∈ xs, idMatches reqId r = false) ∧
    callToolStep "req_b"
      ⟨"application/json",
       Body.jval (Jx.arr
         [Jx.obj [("id", Jx.str "req_a"), ("result", Jx.str "first-result")],
          Jx.obj [("id", Jx.str "req_b"), ("result", Jx.str "second-result")]]), none⟩ =
      .ok (Jx.str "second-result") := by
  refine ⟨?_, ?_, ?_, rfl⟩
  · simp only [batchSelect]
    rw [findMatching_ok reqId xs h]
    cases hf : xs.find? (idMatches reqId) with
    | some r => rfl
    | none => rfl
  · intro r hr
    exact ⟨List.find?_some hr, List.mem_of_find?_eq_some hr⟩
  · intro hn r hr
    have hne := List.find?_eq_none.mp hn r hr
    cases hm : idMatches reqId r
    · rfl
    · exact absurd hm hne

theorem c6_batch_id_correlation_witness :
    batchSelect "req_b"
      (Jx.arr
        [Jx.obj [("id", Jx.str "req_a"), ("result", Jx.str "first-result")],
         Jx.obj [("id", Jx.str "req_b"), ("result", Jx.str "second-result")]]) =
      .ok (Jx.obj [("id", Jx.str "req_b"), ("result", Jx.str "second-result")]) :=
  (c6_batch_id_correlation "req_b"
    [Jx.obj [("id", Jx.str "req_a"), ("result", Jx.str "first-result")],
     Jx.obj [("id", Jx.str "req_b"), ("result", Jx.str "second-result")]] rfl).1

theorem applySession_version (st : ClientState) (hdr : Option String) :
    (applySession st hdr).protocolVersion = st.protocolVersion := by
  cases hdr with
  | none => rfl
  | some s =>
      by_cases h : s = ""
      · simp [applySession, h]
      · simp [applySession, h]

theorem adoptVersion_mem (cur : String) (sel : Jx)
    (h : cur ∈ SUPPORTED_PROTOCOL_VERSIONS) :
    (adoptVersion cur sel).1 ∈ SUPPORTED_PROTOCOL_VERSIONS := by
  unfold adoptVersion
  rcases hp : (sel.fieldOpt "result").bind (fun rv => rv.fieldOpt "protocolVersion") with _ | v
  · exact h
  · rcases v with _ | b | n | s | a | o <;> simp only [] <;> split_ifs <;>
      first
        | exact h
        | exact (contains_iff_mem _ _).mp (by assumption)

theorem adoptVersion_warned (cur : String) (sel : Jx)
    (h : (adoptVersion cur sel).2 = true) : (adoptVersion cur sel).1 = cur := by
  unfold adoptVersion at h ⊢
  rcases hp : (sel.fieldOpt "result").bind (fun rv => rv.fieldOpt "protocolVersion") with _ | v
  · rfl
  · rw [hp] at h
    rcases v with _ | b | n | s | a | o <;> simp only [] at h ⊢ <;> split_ifs at h ⊢ <;> simp_all

theorem adoptVersion_adopt (cur : String) (sel : Jx) (s : String)
    (hp : (sel.fieldOpt "result").bind (fun rv => rv.fieldOpt "protocolVersion") =
      some (Jx.str s))
    (hs : s ≠ "") :
    (SUPPORTED_PROTOCOL_VERSIONS.contains s = true → adoptVersion cur sel = (s, false)) ∧
    (SUPPORTED_PROTOCOL_VERSIONS.contains s = false → adoptVersion cur sel = (cur, true)) := by
  have ht : (Jx.str s).truthy = true := by
    simp [Jx.truthy, hs]
  constructor
  · intro hc
    unfold adoptVersion
    rw [hp]
    simp only [ht, if_true, hc]
  · intro hc
    unfold adoptVersion
    rw [hp]
    simp only [ht, if_true, hc, Bool.false_eq_true, if_false]

theorem exceptBind_ok {ε α β : Type} (a : α) (f : α → Except ε β) :
    (Except.ok a >>= f : Except ε β) = f a := rfl

theorem exceptBind_err {ε α β : Type} (e : ε) (f : α → Except ε β) :
    (Except.error e >>= f : Except ε β) = Except.error e := rfl

theorem initHandshake_eq (jparse : String → Option Jx) (st : ClientState) (reqId : String)
    (resp : HttpResponse) (sel : Jx)
    (hini : st.initialized = false)
    (hdm : demuxSelect jparse reqId resp.contentType resp.body = .ok sel)
    (herr : rpcErrCheck sel = .ok ()) :
    initHandshake jparse st reqId resp =
      .ok ({ applySession { st with protocolVersion := (adoptVersion st.protocolVersion sel).1 }
               resp.sessionId with initialized := true },
           (adoptVersion st.protocolVersion sel).2) := by
  unfold initHandshake
  rw [hini]
  simp only [Bool.false_eq_true, if_false, hdm, exceptBind_ok]
  rw [herr]
  rfl

/-- C7: after a successful initialize from the fresh default state the
negotiated protocol version is a member of the supported set; the
server version is adopted only when it is supported; an unsupported
server version leaves the default in place, raises the warning flag,
and the handshake nevertheless succeeds. -/
theorem c7_version_negotiation (jparse : String → Option Jx) (st : ClientState)
    (reqId : String) (resp : HttpResponse) (sel : Jx)
    (hini : st.initialized = false)
    (hd : st.protocolVersion = DEFAULT_NEGOTIATED_PROTOCOL_VERSION)
    (hdm : demuxSelect jparse reqId resp.contentType resp.body = .ok sel)
    (herr : rpcErrCheck sel = .ok ()) :
    ∃ st' warned, initHandshake jparse st reqId resp = .ok (st', warned) ∧
      st'.protocolVersion ∈ SUPPORTED_PROTOCOL_VERSIONS ∧
      (warned = true → st'.protocolVersion = DEFAULT_NEGOTIATED_PROTOCOL_VERSION) ∧
      ∀ s, (sel.fieldOpt "result").bind (fun rv => rv.fieldOpt "protocolVersion") =
          some (Jx.str s) → s ≠ "" →
        (SUPPORTED_PROTOCOL_VERSIONS.contains s = true → st'.protocolVersion = s) ∧
        (SUPPORTED_PROTOCOL_VERSIONS.contains s = false →
          st'.protocolVersion = DEFAULT_NEGOTIATED_PROTOCOL_VERSION ∧ warned = true) := by
  have hstep := initHandshake_eq jparse st reqId resp sel hini hdm herr
  refine ⟨_, _, hstep, ?_, ?_, ?_⟩
  · show ({ applySession { st with protocolVersion := (adoptVersion st.protocolVersion sel).1 }
        resp.sessionId with initialized := true }).protocolVersion ∈ SUPPORTED_PROTOCOL_VERSIONS
    have hv : ({ applySession
          { st with protocolVersion := (adoptVersion st.protocolVersion sel).1 }
          resp.sessionId with initialized := true } : ClientState).protocolVersion =
        (adoptVersion st.protocolVersion sel).1 := by
      simp [applySession_version]
    rw [hv]
    refine adoptVersion_mem st.protocolVersion sel ?_
    rw [hd]
    decide
  · intro hw
    have hv : ({ applySession
          { st with protocolVersion := (adoptVersion st.protocolVersion sel).1 }
          resp.sessionId with initialized := true } : ClientState).protocolVersion =
        (adoptVersion st.protocolVersion sel).1 := by
      simp [applySession_version]
    rw [hv, adoptVersion_warned st.protocolVersion sel hw, hd]
  · intro s hp hs
    have hv : ({ applySession
          { st with protocolVersion := (adoptVersion st.protocolVersion sel).1 }
          resp.sessionId with initialized := true } : ClientState).protocolVersion =
        (adoptVersion st.protocolVersion sel).1 := by
      simp [applySession_version]
    obtain ⟨hyes, hno⟩ := adoptVersion_adopt st.protocolVersion sel s hp hs
    constructor
    · intro hc
      rw [hv, hyes hc]
    · intro hc
      refine ⟨?_, ?_⟩
      · rw [hv, hno hc, hd]
      · show (adoptVersion st.protocolVersion sel).2 = true
        rw [hno hc]

theorem c7_version_negotiation_witness :
    ∃ st' warned,
      initHandshake (fun _ => none) freshClient "req_1"
        ⟨"application/json", Body.jval demoInitSel, none⟩ = .ok (st', warned) ∧
      st'.protocolVersion ∈ SUPPORTED_PROTOCOL_VERSIONS ∧
      (warned = true → st'.protocolVersion = DEFAULT_NEGOTIATED_PROTOCOL_VERSION) ∧
      ∀ s, (demoInitSel.fieldOpt "result").bind (fun rv => rv.fieldOpt "protocolVersion") =
          some (Jx.str s) → s ≠ "" →
        (SUPPORTED_PROTOCOL_VERSIONS.contains s = true → st'.protocolVersion = s) ∧
        (SUPPORTED_PROTOCOL_VERSIONS.contains s = false →
          st'.protocolVersion = DEFAULT_NEGOTIATED_PROTOCOL_VERSION ∧ warned = true) :=
  c7_version_negotiation (fun _ => none) freshClient "req_1"
    ⟨"application/json", Body.jval demoInitSel, none⟩ demoInitSel rfl rfl rfl rfl

/-- C3 counterexample: the SSE demux does extract the last data block
(first two conjuncts: the shared demux and the tools/list handler
consume it), but the tools/call handler performs no SSE handling at
all and fails on the very same SSE-framed response — contradicting the
claim that all three operations take the last data block as the
effective response. -/
theorem c3_counterexample :
    sseDemux demoJparse "text/event-stream" (Body.text demoSse) = .ok demoParsed ∧
    listToolsStep demoJparse "req_1" ⟨"text/event-stream", Body.text demoSse, none⟩ =
      .ok (Jx.arr []) ∧
    callToolStep "req_1" ⟨"text/event-stream", Body.text demoSse, none⟩ =
      .error McpErr.typeError := ⟨rfl, rfl, rfl⟩

theorem initHandshake_congr (jparse : String → Option Jx) (st : ClientState) (reqId : String)
    (r1 r2 : HttpResponse)
    (hdm : demuxSelect jparse reqId r1.contentType r1.body =
      demuxSelect jparse reqId r2.contentType r2.body)
    (hsid : r1.sessionId = r2.sessionId) :
    initHandshake jparse st reqId r1 = initHandshake jparse st reqId r2 := by
  unfold initHandshake
  rw [hdm, hsid]

theorem listToolsStep_congr (jparse : String → Option Jx) (reqId : String)
    (r1 r2 : HttpResponse)
    (hdm : demuxSelect jparse reqId r1.contentType r1.body =
      demuxSelect jparse reqId r2.contentType r2.body) :
    listToolsStep jparse reqId r1 = listToolsStep jparse reqId r2 := by
  unfold listToolsStep
  rw [hdm]

theorem initHandshake_demux_err (jparse : String → Option Jx) (st : ClientState)
    (reqId : String) (resp : HttpResponse) (e : McpErr)
    (hini : st.initialized = false)
    (hdm : demuxSelect jparse reqId resp.contentType resp.body = .error e) :
    initHandshake jparse st reqId resp = .error e := by
  unfold initHandshake
  rw [hini]
  simp only [Bool.false_eq_true, if_false, hdm, exceptBind_err]

theorem listToolsStep_demux_err (jparse : String → Option Jx)
    (reqId : String) (resp : HttpResponse) (e : McpErr)
    (hdm : demuxSelect jparse reqId resp.contentType resp.body = .error e) :
    listToolsStep jparse reqId resp = .error e := by
  unfold listToolsStep
  simp only [hdm, exceptBind_err]

theorem demuxSelect_sse (jparse : String → Option Jx) (reqId ct s : String)
    (hsse : isSse ct (Body.text s) = true) :
    demuxSelect jparse reqId ct (Body.text s) =
      (match lastDataBlock s with
       | none => .error .emptySsePayload
       | some b =>
           match jparse b with
           | none => .error .invalidSsePayload
           | some v => batchSelect reqId v) := by
  unfold demuxSelect sseDemux
  simp only [hsse, if_true, Body.asText]
  cases hb : lastDataBlock s with
  | none => simp [hb, exceptBind_err]
  | some b =>
      cases hj : jparse b with
      | none => simp [hb, hj, exceptBind_err]
      | some v => simp [hb, hj, exceptBind_ok]

/-- C3 amended: the SSE demux (content type text/event-stream, or a
string body containing data: lines; last complete data: block parsed
as JSON as the effective response, earlier blocks ignored; protocol
error when there is no data: block or the last block is unparseable)
applies to the initialize and tools/list handlers only; the tools/call
handler performs no SSE handling and fails with a type error on an
SSE-framed string body. -/
theorem c3_sse_scope (jparse : String → Option Jx) (ct s : String) (st : ClientState)
    (reqId : String) (sid : Option String)
    (hsse : isSse ct (Body.text s) = true)
    (hini : st.initialized = false) :
    (lastDataBlock s = none →
       initHandshake jparse st reqId ⟨ct, Body.text s, sid⟩ = .error .emptySsePayload ∧
       listToolsStep jparse reqId ⟨ct, Body.text s, sid⟩ = .error .emptySsePayload) ∧
    (∀ b, lastDataBlock s = some b → jparse b = none →
       initHandshake jparse st reqId ⟨ct, Body.text s, sid⟩ = .error .invalidSsePayload ∧
       listToolsStep jparse reqId ⟨ct, Body.text s, sid⟩ = .error .invalidSsePayload) ∧
    (∀ b v, lastDataBlock s = some b → jparse b = some v →
       initHandshake jparse st reqId ⟨ct, Body.text s, sid⟩ =
         initHandshake jparse st reqId ⟨"application/json", Body.jval v, sid⟩ ∧
       listToolsStep jparse reqId ⟨ct, Body.text s, sid⟩ =
         listToolsStep jparse reqId ⟨"application/json", Body.jval v, sid⟩) ∧
    callToolStep reqId ⟨ct, Body.text s, sid⟩ = .error .typeError := by
  have hds := demuxSelect_sse jparse reqId ct s hsse
  refine ⟨?_, ?_, ?_, ?_⟩
  · intro hb
    rw [hb] at hds
    exact ⟨initHandshake_demux_err jparse st reqId _ _ hini hds,
           listToolsStep_demux_err jparse reqId _ _ hds⟩
  · intro b hb hj
    rw [hb] at hds
    simp only [hj] at hds
    exact ⟨initHandshake_demux_err jparse st reqId _ _ hini hds,
           listToolsStep_demux_err jparse reqId _ _ hds⟩
  · intro b v hb hj
    rw [hb] at hds
    simp only [hj] at hds
    have hrhs : demuxSelect jparse reqId "application/json" (Body.jval v) =
        batchSelect reqId v := by
      unfold demuxSelect sseDemux
      have hno : isSse "application/json" (Body.jval v) = false := rfl
      simp only [hno, Bool.false_eq_true, if_false, Body.asJx, exceptBind_ok]
    exact ⟨initHandshake_congr jparse st reqId _ _ (by rw [hds, hrhs]) rfl,
           listToolsStep_congr jparse reqId _ _ (by rw [hds, hrhs])⟩
  · rfl

theorem c3_sse_scope_witness :
    initHandshake demoJparse freshClient "req_1"
      ⟨"text/event-stream", Body.text demoSse, none⟩ =
    initHandshake demoJparse freshClient "req_1"
      ⟨"application/json", Body.jval demoParsed, none⟩ :=
  ((c3_sse_scope demoJparse "text/event-stream" demoSse freshClient "req_1" none rfl
      rfl).2.2.1 "omega" demoParsed rfl rfl).1

/-- C8: every outcome of a tools/call dispatch through the execution
bridge produces exactly one result carrying the connector id and tool
name as metadata, and a transport rejection or a server-reported error
status always yields the typed error result rather than a propagated
exception. -/
theorem c8_execute_errors_typed (cid tn : String) (oc : ActionOutcome) :
    (∃ r, executeMcpTool cid tn oc = [r] ∧ resultMeta r = (cid, tn)) ∧
    (isErrorOutcome oc = true →
      ∃ m, executeMcpTool cid tn oc = [ToolHandlerResult.errorResult m cid tn]) := by
  constructor
  · cases oc with
    | thrown msg => exact ⟨_, rfl, rfl⟩
    | errStatus msg => exact ⟨_, rfl, rfl⟩
    | okData data =>
        cases hn : normalizeContent data with
        | ok content =>
            refine ⟨ToolHandlerResult.other content tn cid, ?_, rfl⟩
            simp [executeMcpTool, hn]
        | error e =>
            refine ⟨ToolHandlerResult.errorResult "Error executing MCP tool: TypeError" cid tn,
              ?_, rfl⟩
            simp [executeMcpTool, hn]
  · intro herr
    cases oc with
    | thrown msg => exact ⟨_, rfl⟩
    | errStatus msg => exact ⟨_, rfl⟩
    | okData data => simp [isErrorOutcome] at herr

theorem c8_execute_errors_typed_witness :
    ∃ m, executeMcpTool "conn-1" "missingCapability" (ActionOutcome.errStatus none) =
      [ToolHandlerResult.errorResult m "conn-1" "missingCapability"] :=
  (c8_execute_errors_typed "conn-1" "missingCapability" (ActionOutcome.errStatus none)).2 rfl

/-- C9 counterexample: the schema bridge is not total — a property
whose value is JSON null makes the JS property access prop.type throw
a TypeError instead of degrading to an accept-anything validator. -/
theorem c9_counterexample :
    convertMcpSchemaToZod
      { schemaType := "object", properties := some [("a", Jx.null)], required := none } =
      .error () := rfl

theorem convertProp_ok (required : Option (List String)) (key : String) (prop : Jx)
    (h : prop ≠ Jx.null) : ∃ f, convertProp required key prop = .ok f := by
  cases prop with
  | null => exact absurd rfl h
  | bool b => exact ⟨_, rfl⟩
  | num n => exact ⟨_, rfl⟩
  | str s => exact ⟨_, rfl⟩
  | arr a => exact ⟨_, rfl⟩
  | obj o => exact ⟨_, rfl⟩

theorem convertProps_ok (required : Option (List String)) (props : List (String × Jx))
    (h : ∀ kv ∈ props, kv.snd ≠ Jx.null) :
    ∃ shape, convertProps required props = .ok shape := by
  induction props with
  | nil => exact ⟨[], rfl⟩
  | cons kv rest ih =>
      obtain ⟨f, hf⟩ := convertProp_ok required kv.fst kv.snd
        (h kv (List.mem_cons_self kv rest))
      obtain ⟨shape, hs⟩ := ih (fun x hx => h x (List.mem_cons_of_mem kv hx))
      refine ⟨(kv.fst, f) :: shape, ?_⟩
      simp only [convertProps, hf, hs, exceptBind_ok]

theorem convertProp_unsupported (required : Option (List String)) (key : String) (prop : Jx)
    (hp : prop ≠ Jx.null) (hu : unsupportedPropType prop = true) :
    (convertProp required key prop).map (fun f => f.base) = .ok ZodBase.zAny := by
  cases prop with
  | null => exact absurd rfl hp
  | bool b => rfl
  | num n => rfl
  | str s => rfl
  | arr a => rfl
  | obj o =>
      unfold unsupportedPropType at hu
      cases hft : (Jx.obj o).fieldOpt "type" with
      | none => simp [convertProp, hft, Except.map]
      | some v =>
          cases v with
          | str t =>
              rw [hft] at hu
              simp only [] at hu
              have hc : (["string", "number", "integer", "boolean", "array",
                  "object"]).contains t = false := by
                cases hx : (["string", "number", "integer", "boolean", "array",
                    "object"]).contains t
                · rfl
                · rw [hx] at hu; exact absurd hu (by simp)
              have hmem := (contains_eq_false_iff _ t).mp hc
              simp only [List.mem_cons, List.mem_singleton, not_or] at hmem
              obtain ⟨h1, h2, h3, h4, h5, h6⟩ := hmem
              simp [convertProp, hft, h1, h2, h3, h4, h5, h6, Except.map]
          | null => rw [hft] at hu; simp [convertProp, hft, Except.map]
          | bool b => simp [convertProp, hft, Except.map]
          | num n => simp [convertProp, hft, Except.map]
          | arr a => simp [convertProp, hft, Except.map]
          | obj o2 => simp [convertProp, hft, Except.map]

/-- C9 amended: the schema bridge is total on every schema whose
property values are non-null (a null property value raises a
TypeError, forced by the counterexample); a non-null property whose
declared type is outside the supported set degrades to an
accept-anything field, and a top-level type other than object yields
the empty object validator. -/
theorem c9_schema_bridge (s : McpInputSchema)
    (hnn : ∀ kv ∈ s.properties.getD [], kv.snd ≠ Jx.null) :
    (∃ shape, convertMcpSchemaToZod s = .ok shape) ∧
    (s.schemaType ≠ "object" → convertMcpSchemaToZod s = .ok []) ∧
    ∀ k p, p ≠ Jx.null → unsupportedPropType p = true →
      (convertProp s.required k p).map (fun f => f.base) = .ok ZodBase.zAny := by
  refine ⟨?_, ?_, ?_⟩
  · unfold convertMcpSchemaToZod
    by_cases ht : s.schemaType = "object"
    · simp only [ht, ne_eq, not_true_eq_false, if_false]
      cases hp : s.properties with
      | none => exact ⟨[], rfl⟩
      | some props =>
          refine convertProps_ok s.required props ?_
          intro kv hkv
          refine hnn kv ?_
          rw [hp]
          exact hkv
      -- the if on the negated condition reduced by ht
    · rw [if_pos ht]
      exact ⟨[], rfl⟩
  · intro ht
    unfold convertMcpSchemaToZod
    rw [if_pos ht]
  · intro k p hp hu
    exact convertProp_unsupported s.required k p hp hu

theorem c9_schema_bridge_witness :
    (∃ shape, convertMcpSchemaToZod
      { schemaType := "object",
        properties := some [("q", Jx.obj [("type", Jx.str "fancy")])],
        required := none } = .ok shape) ∧
    (("object" : String) ≠ "object" → convertMcpSchemaToZod
      { schemaType := "object",
        properties := some [("q", Jx.obj [("type", Jx.str "fancy")])],
        required := none } = .ok []) ∧
    ∀ k p, p ≠ Jx.null → unsupportedPropType p = true →
      (convertProp none k p).map (fun f => f.base) = .ok ZodBase.zAny :=
  c9_schema_bridge
    { schemaType := "object",
      properties := some [("q", Jx.obj [("type", Jx.str "fancy")])],
      required := none }
    (by
      intro kv hkv
      have h2 : kv = ("q", Jx.obj [("type", Jx.str "fancy")]) := by simpa using hkv
      subst h2
      exact fun h => Jx.noConfusion h)

/-- C10: a postSave invocation with an unsuccessful save, or with an
absent or empty selected-capabilities list, returns before touching
anything: no registry operation, no config write, no state change —
in particular deselecting every capability leaves all previously
projected tools in place. -/
theorem c10_empty_selection_noop (ns : String → String) (orc : Oracle) (p : PassParams)
    (w : World)
    (h : p.wasSuccessful = false ∨ p.selectedTools = none ∨ p.selectedTools = some []) :
    createAgentBuilderTools ns orc p w = (w, [], false) := by
  have hg : guardSkip p = true := by
    unfold guardSkip
    rcases h with h | h | h
    · simp [h]
    · simp [h]
    · simp [h]
  unfold createAgentBuilderTools
  rw [if_pos hg]

theorem c10_empty_selection_noop_witness :
    createAgentBuilderTools (fun _ => "srv") noFailOracle
      { connectorId := "conn-1", url := "u", selectedTools := some [], wasSuccessful := true }
      { registry := [demoToolA], createdToolIds := ["mcp.srv.a"], inProgress := [] } =
      ({ registry := [demoToolA], createdToolIds := ["mcp.srv.a"], inProgress := [] },
       [], false) :=
  c10_empty_selection_noop (fun _ => "srv") noFailOracle
    { connectorId := "conn-1", url := "u", selectedTools := some [], wasSuccessful := true }
    { registry := [demoToolA], createdToolIds := ["mcp.srv.a"], inProgress := [] }
    (Or.inr (Or.inr rfl))

/-- C4: a pass for a connector that is already in flight is a complete
no-op (first conjunct), and every invocation — entered or not, with or
without injected failures on any port — leaves the in-progress set as
it found it when the connector was not already in flight, i.e. the
guard added on entry is released on every exit path including the
throwing one (second conjunct). -/
theorem c4_inflight_guard (ns : String → String) (orc : Oracle) (p : PassParams)
    (w : World) :
    (w.inProgress.contains p.connectorId = true →
      createAgentBuilderTools ns orc p w = (w, [], false)) ∧
    (w.inProgress.contains p.connectorId = false →
      ((createAgentBuilderTools ns orc p w).1).inProgress = w.inProgress) := by
  constructor
  · intro h
    unfold createAgentBuilderTools
    cases hg : guardSkip p with
    | true => simp
    | false =>
        simp [h]
        intro hn
        exact absurd ((contains_iff_mem _ _).mp h) hn
  · intro h
    unfold createAgentBuilderTools
    cases hg : guardSkip p with
    | true => simp
    | false =>
        simp only [Bool.false_eq_true, if_false, h]
        cases hr : orc.registryFails with
        | true => simp [List.erase_cons_head]
        | false => simp [List.erase_cons_head]

theorem c4_inflight_guard_witness :
    createAgentBuilderTools (fun _ => "srv") noFailOracle
      { connectorId := "conn-1", url := "u", selectedTools := some ["a"],
        wasSuccessful := true }
      { registry := [demoToolA], createdToolIds := [], inProgress := ["conn-1"] } =
      ({ registry := [demoToolA], createdToolIds := [], inProgress := ["conn-1"] },
       [], false) :=
  (c4_inflight_guard (fun _ => "srv") noFailOracle
    { connectorId := "conn-1", url := "u", selectedTools := some ["a"],
      wasSuccessful := true }
    { registry := [demoToolA], createdToolIds := [], inProgress := ["conn-1"] }).1 rfl

theorem pass_eq (ns : String → String) (orc : Oracle) (p : PassParams) (w : World)
    (sel : List String) (h : EnteredPass orc p w sel) :
    createAgentBuilderTools ns orc p w =
      ({ registry := (applyCreates orc p.connectorId (ns p.url)
            (applyDeletes orc w.registry (passDels p w sel)).1 (passCrts p w sel)).1,
         createdToolIds := (configStep orc p.connectorId
            (applyCreates orc p.connectorId (ns p.url)
              (applyDeletes orc w.registry (passDels p w sel)).1 (passCrts p w sel)).1
            w.createdToolIds).1,
         inProgress := w.inProgress },
       (applyDeletes orc w.registry (passDels p w sel)).2 ++
         ((applyCreates orc p.connectorId (ns p.url)
            (applyDeletes orc w.registry (passDels p w sel)).1 (passCrts p w sel)).2 ++
          (configStep orc p.connectorId
            (applyCreates orc p.connectorId (ns p.url)
              (applyDeletes orc w.registry (passDels p w sel)).1 (passCrts p w sel)).1
            w.createdToolIds).2),
       false) := by
  obtain ⟨h1, h2, h3, h4, h5⟩ := h
  have hg : guardSkip p = false := by
    unfold guardSkip
    rw [h1, h2]
    cases sel with
    | nil => exact absurd rfl h3
    | cons a l => rfl
  unfold createAgentBuilderTools
  rw [if_neg (by rw [hg]; exact Bool.false_ne_true),
      if_neg (by rw [h4]; exact Bool.false_ne_true),
      if_neg (by rw [h5]; exact Bool.false_ne_true)]
  simp only [h2, Option.getD_some, List.erase_cons_head, passDels, passCrts]
  rw [List.append_assoc]

theorem applyDeletes_ops (orc : Oracle) (reg : List RegistryTool) (ids : List String) :
    (applyDeletes orc reg ids).2 = ids.map (delAttempt orc) := by
  induction ids generalizing reg with
  | nil => rfl
  | cons tid rest ih =>
      cases hf : orc.deleteFails tid with
      | true => simp [applyDeletes, delAttempt, hf, ih]
      | false => simp [applyDeletes, delAttempt, hf, ih]

theorem applyCreates_ops (orc : Oracle) (cid ns : String) (reg : List RegistryTool)
    (names : List String) :
    (applyCreates orc cid ns reg names).2 =
      names.map (fun n => createAttempt orc (localToolId ns n)) := by
  induction names generalizing reg with
  | nil => rfl
  | cons n rest ih =>
      cases hf : orc.createFails (localToolId ns n) with
      | true => simp [applyCreates, createAttempt, hf, ih]
      | false => simp [applyCreates, createAttempt, hf, ih]

theorem configStep_writeOnly (orc : Oracle) (cid : String) (reg : List RegistryTool)
    (recorded : List String) :
    ∀ o ∈ (configStep orc cid reg recorded).2, isRegistryOp o = false := by
  intro o ho
  unfold configStep at ho
  split_ifs at ho
  · simp at ho
  · simp at ho
  · dsimp only at ho
    split_ifs at ho <;> simp at ho
    subst ho
    rfl

theorem registryOps_delAttempts (orc : Oracle) (ids : List String) :
    registryOps (ids.map (delAttempt orc)) = ids.map (delAttempt orc) := by
  unfold registryOps
  refine List.filter_eq_self.mpr ?_
  intro o ho
  obtain ⟨i, _, hi⟩ := List.mem_map.mp ho
  subst hi
  unfold delAttempt isRegistryOp
  split_ifs <;> rfl

theorem registryOps_createAttempts (orc : Oracle) (ns : String) (names : List String) :
    registryOps (names.map (fun n => createAttempt orc (localToolId ns n))) =
      names.map (fun n => createAttempt orc (localToolId ns n)) := by
  unfold registryOps
  refine List.filter_eq_self.mpr ?_
  intro o ho
  obtain ⟨i, _, hi⟩ := List.mem_map.mp ho
  subst hi
  unfold createAttempt isRegistryOp
  split_ifs <;> rfl

theorem registryOps_configStep (orc : Oracle) (cid : String) (reg : List RegistryTool)
    (recorded : List String) :
    registryOps (configStep orc cid reg recorded).2 = [] := by
  unfold registryOps
  refine List.filter_eq_nil_iff.mpr ?_
  intro o ho
  rw [configStep_writeOnly orc cid reg recorded o ho]
  exact Bool.false_ne_true

/-- C5 counterexample: against an empty registry with selection
[b, a], the creates are performed in selection order (b before a),
although capability name a lexicographically precedes b — so the
claimed lexicographic processing order does not hold. -/
theorem c5_counterexample :
    (createAgentBuilderTools (fun _ => "srv") noFailOracle
       { connectorId := "conn-1", url := "u", selectedTools := some ["b", "a"],
         wasSuccessful := true }
       { registry := [], createdToolIds := [], inProgress := [] }).2.1 =
      [RegOp.created "mcp.srv.b", RegOp.created "mcp.srv.a",
       RegOp.wroteIds ["mcp.srv.b", "mcp.srv.a"]] ∧
    strLexLt "a" "b" = true := by
  constructor
  · rfl
  · rfl

theorem pass_registryOps (ns : String → String) (orc : Oracle) (p : PassParams)
    (w : World) (sel : List String) (h : EnteredPass orc p w sel) :
    registryOps (createAgentBuilderTools ns orc p w).2.1 =
      (passDels p w sel).map (delAttempt orc) ++
      (passCrts p w sel).map (fun n => createAttempt orc (localToolId (ns p.url) n)) := by
  rw [pass_eq ns orc p w sel h]
  show registryOps (_ ++ (_ ++ _)) = _
  unfold registryOps
  rw [List.filter_append, List.filter_append]
  rw [applyDeletes_ops, applyCreates_ops]
  have h1 := registryOps_delAttempts orc (passDels p w sel)
  have h2 := registryOps_createAttempts orc (ns p.url) (passCrts p w sel)
  have h3 := registryOps_configStep orc p.connectorId
    (applyCreates orc p.connectorId (ns p.url)
      (applyDeletes orc w.registry (passDels p w sel)).1 (passCrts p w sel)).1
    w.createdToolIds
  unfold registryOps at h1 h2 h3
  rw [h1, h2, h3, List.append_nil]

/-- C5 amended: within one entered pass, for every failure-injection
oracle, the registry operations are exactly the attempted deletes
followed by the attempted creates — deletes in the order the existing
tools appear in the registry listing (the existingByName insertion
order) and creates in first-occurrence selection order, not
lexicographic order; every scheduled item is attempted even when other
items fail, a failing item merely producing its failure marker in
place (logged and skipped, not fatal to the batch). -/
theorem c5_deletes_then_creates (ns : String → String) (orc : Oracle) (p : PassParams)
    (w : World) (sel : List String) (h : EnteredPass orc p w sel) :
    registryOps (createAgentBuilderTools ns orc p w).2.1 =
      (passDels p w sel).map (delAttempt orc) ++
      (passCrts p w sel).map (fun n => createAttempt orc (localToolId (ns p.url) n)) :=
  pass_registryOps ns orc p w sel h

theorem c5_deletes_then_creates_witness :
    registryOps (createAgentBuilderTools (fun _ => "srv") c5orc c5p c5w).2.1 =
      (passDels c5p c5w ["a"]).map (delAttempt c5orc) ++
      (passCrts c5p c5w ["a"]).map
        (fun n => createAttempt c5orc (localToolId "srv" n)) :=
  c5_deletes_then_creates (fun _ => "srv") c5orc c5p c5w ["a"]
    ⟨rfl, rfl, List.cons_ne_nil _ _, rfl, rfl⟩

theorem namedPair_some (t : RegistryTool) (n : String) (ht : t.toolName = some n)
    (hn : n ≠ "") : namedPair t = some (n, t.id) := by
  unfold namedPair
  rw [ht]
  simp only []
  rw [if_neg hn]

theorem namedPairs_cons_none (t : RegistryTool) (rest : List RegistryTool)
    (h : namedPair t = none) : namedPairs (t :: rest) = namedPairs rest := by
  unfold namedPairs
  rw [List.filterMap_cons, h]

theorem namedPairs_cons_some (t : RegistryTool) (rest : List RegistryTool)
    (q : String × String) (h : namedPair t = some q) :
    namedPairs (t :: rest) = q :: namedPairs rest := by
  unfold namedPairs
  rw [List.filterMap_cons, h]

theorem buildByName_eq : ∀ (l : List RegistryTool) (m : List (String × String)),
    (∀ q ∈ namedPairs l, ∀ q2 ∈ m, q.fst ≠ q2.fst) →
    ((namedPairs l).map Prod.fst).Nodup →
    buildByName m l = m ++ namedPairs l := by
  intro l
  induction l with
  | nil =>
      intro m _ _
      simp [buildByName, namedPairs]
  | cons t rest ih =>
      intro m hdisj hnd
      cases ht : t.toolName with
      | none =>
          have hnp : namedPairs (t :: rest) = namedPairs rest :=
            namedPairs_cons_none t rest (by unfold namedPair; rw [ht])
          rw [hnp] at hdisj hnd ⊢
          simp only [buildByName, ht]
          exact ih m hdisj hnd
      | some n =>
          by_cases hn : n = ""
          · have hnp : namedPairs (t :: rest) = namedPairs rest :=
              namedPairs_cons_none t rest
                (by unfold namedPair; rw [ht]; simp only []; rw [if_pos hn])
            rw [hnp] at hdisj hnd ⊢
            simp only [buildByName, ht]
            rw [if_pos hn]
            exact ih m hdisj hnd
          · have hnp : namedPairs (t :: rest) = (n, t.id) :: namedPairs rest :=
              namedPairs_cons_some t rest (n, t.id) (namedPair_some t n ht hn)
            rw [hnp] at hdisj hnd ⊢
            have hhead : ∀ q2 ∈ m, n ≠ q2.fst := by
              intro q2 hq2
              exact hdisj (n, t.id) (List.mem_cons_self _ _) q2 hq2
            have hany : m.any (fun p => p.fst == n) = false := by
              refine List.any_eq_false.mpr ?_
              intro q2 hq2 hbeq
              exact hhead q2 hq2 (beq_iff_eq.mp hbeq).symm
            have hms : mapSet m n t.id = m ++ [(n, t.id)] := by
              unfold mapSet
              rw [if_neg (by rw [hany]; exact Bool.false_ne_true)]
            rw [List.map_cons] at hnd
            have hnd' := List.nodup_cons.mp hnd
            simp only [buildByName, ht]
            rw [if_neg hn, hms]
            rw [ih (m ++ [(n, t.id)]) ?_ hnd'.2]
            · rw [List.append_assoc, List.singleton_append]
            · intro q hq q2 hq2
              rcases List.mem_append.mp hq2 with hm | hone
              · exact hdisj q (List.mem_cons_of_mem _ hq) q2 hm
              · rw [List.mem_singleton] at hone
                subst hone
                intro hfst
                exact hnd'.1 (hfst ▸ List.mem_map_of_mem Prod.fst hq)

theorem any_fst_eq_contains (m : List (String × String)) (n : String) :
    m.any (fun q => q.fst == n) = (m.map Prod.fst).contains n := by
  cases hx : m.any (fun q => q.fst == n) with
  | true =>
      obtain ⟨q, hq, hb⟩ := List.any_eq_true.mp hx
      have hmem : n ∈ m.map Prod.fst :=
        (beq_iff_eq.mp hb) ▸ List.mem_map_of_mem Prod.fst hq
      rw [(contains_iff_mem _ _).mpr hmem]
  | false =>
      have hnot : n ∉ m.map Prod.fst := by
        intro hmem
        obtain ⟨q, hq, hfst⟩ := List.mem_map.mp hmem
        have : m.any (fun q => q.fst == n) = true :=
          List.any_eq_true.mpr ⟨q, hq, beq_iff_eq.mpr hfst⟩
        rw [this] at hx
        exact Bool.true_eq_false.mp hx
      rw [(contains_eq_false_iff _ _).mpr hnot]

theorem wf_byName (w : World) (cid : String) (hwf : WellFormedFor w cid) :
    buildByName [] (w.registry.filter (isAssociated cid)) =
      namedPairs (w.registry.filter (isAssociated cid)) := by
  rw [buildByName_eq (w.registry.filter (isAssociated cid)) []
    (fun q _ q2 hq2 => absurd hq2 (List.not_mem_nil q2)) hwf.2.1]
  exact List.nil_append _

theorem passDels_eq (p : PassParams) (w : World) (sel : List String)
    (hwf : WellFormedFor w p.connectorId) :
    passDels p w sel = specToDelete w p.connectorId sel := by
  unfold passDels specToDelete toDeleteIds
  rw [wf_byName w p.connectorId hwf]
  refine congrArg (List.map Prod.snd) (List.filter_congr ?_)
  intro q _
  rw [dedupFirst_contains]

theorem passCrts_eq (p : PassParams) (w : World) (sel : List String)
    (hwf : WellFormedFor w p.connectorId) :
    passCrts p w sel = specToCreate w p.connectorId sel := by
  unfold passCrts specToCreate toCreateNames projectedNames
  rw [wf_byName w p.connectorId hwf]
  refine List.filter_congr ?_
  intro n _
  rw [any_fst_eq_contains]

theorem applyDeletes_noFail (orc : Oracle) (hnf : ∀ i, orc.deleteFails i = false) :
    ∀ (ids : List String) (reg : List RegistryTool),
      (applyDeletes orc reg ids).1 = reg.filter (fun t => !(ids.contains t.id)) := by
  intro ids
  induction ids with
  | nil =>
      intro reg
      simp [applyDeletes]
  | cons tid rest ih =>
      intro reg
      simp only [applyDeletes, hnf tid, Bool.false_eq_true, if_false]
      rw [ih, List.filter_filter]
      refine List.filter_congr ?_
      intro t _
      cases hx : t.id == tid with
      | true =>
          simp [List.contains_cons, hx, bne]
          exact fun h => absurd (beq_iff_eq.mp hx) h
      | false =>
          simp [List.contains_cons, hx, bne]
          exact fun _ => beq_eq_false_iff_ne.mp hx

theorem applyCreates_noFail (orc : Oracle) (cid ns : String)
    (hnf : ∀ i, orc.createFails i = false) :
    ∀ (names : List String) (reg : List RegistryTool),
      (applyCreates orc cid ns reg names).1 =
        reg ++ names.map (fun n => newTool cid (localToolId ns n) n) := by
  intro names
  induction names with
  | nil =>
      intro reg
      simp [applyCreates]
  | cons n rest ih =>
      intro reg
      simp only [applyCreates, hnf (localToolId ns n), Bool.false_eq_true, if_false]
      rw [ih, List.append_assoc, List.singleton_append, List.map_cons]

theorem namedPair_inv (t : RegistryTool) (q : String × String) (h : namedPair t = some q) :
    t.toolName = some q.fst ∧ q.snd = t.id ∧ q.fst ≠ "" := by
  unfold namedPair at h
  cases htn : t.toolName with
  | none => rw [htn] at h; exact absurd h (by simp)
  | some n =>
      rw [htn] at h
      simp only [] at h
      by_cases hn : n = ""
      · rw [if_pos hn] at h; exact absurd h (by simp)
      · rw [if_neg hn] at h
        have hq := Option.some.inj h
        subst hq
        exact ⟨rfl, rfl, hn⟩

theorem id_injective (w : World) (hnd : (w.registry.map (fun t => t.id)).Nodup)
    {t1 t2 : RegistryTool} (h1 : t1 ∈ w.registry) (h2 : t2 ∈ w.registry)
    (hid : t1.id = t2.id) : t1 = t2 :=
  List.inj_on_of_nodup_map hnd h1 h2 hid

theorem filter_assoc_notdel (cid : String) (reg : List RegistryTool) (ids : List String) :
    (reg.filter (fun t => !(ids.contains t.id))).filter (isAssociated cid) =
      (reg.filter (isAssociated cid)).filter (fun t => !(ids.contains t.id)) := by
  rw [List.filter_filter, List.filter_filter]
  refine List.filter_congr ?_
  intro t _
  exact Bool.and_comm _ _

theorem filter_assoc_created (cid ns : String) (names : List String) :
    (createdTools cid ns names).filter (isAssociated cid) = createdTools cid ns names := by
  refine List.filter_eq_self.mpr ?_
  intro t ht
  obtain ⟨n, _, hn⟩ := List.mem_map.mp ht
  subst hn
  simp [isAssociated, newTool]

theorem kept_eq (w : World) (cid : String) (sel : List String)
    (hwf : WellFormedFor w cid) :
    (w.registry.filter (isAssociated cid)).filter
        (fun t => !((specToDelete w cid sel).contains t.id)) =
      keptTools w cid sel := by
  refine List.filter_congr ?_
  intro t htE
  have htR : t ∈ w.registry := (List.mem_filter.mp htE).1
  have htA : isAssociated cid t = true := (List.mem_filter.mp htE).2
  have hname := hwf.2.2 t htR htA
  cases htn : t.toolName with
  | none =>
      unfold hasNonemptyName at hname
      rw [htn] at hname
      exact absurd hname (by simp)
  | some n =>
      have hne : n ≠ "" := by
        unfold hasNonemptyName at hname
        rw [htn] at hname
        simp only [] at hname
        exact bne_iff_ne.mp hname
      unfold nameSelected
      rw [htn]
      simp only []
      cases hc : sel.contains n with
      | true =>
          rw [(contains_eq_false_iff _ _).mpr ?_]
          · rfl
          · intro hmem
            obtain ⟨q, hq, hsnd⟩ := List.mem_map.mp hmem
            have hqf := List.mem_filter.mp hq
            obtain ⟨t2, ht2, hq2⟩ := List.mem_filterMap.mp hqf.1
            obtain ⟨ht2n, hq2snd, _⟩ := namedPair_inv t2 q hq2
            have ht2R : t2 ∈ w.registry := (List.mem_filter.mp ht2).1
            have hteq : t2 = t := id_injective w hwf.1 ht2R htR (by rw [← hq2snd, hsnd])
            subst hteq
            rw [htn] at ht2n
            have hfst : q.fst = n := (Option.some.inj ht2n).symm
            rw [hfst] at hqf
            rw [hc] at hqf
            exact absurd hqf.2 (by simp)
      | false =>
          rw [(contains_iff_mem _ _).mpr ?_]
          · rfl
          · refine List.mem_map.mpr ⟨(n, t.id), ?_, rfl⟩
            refine List.mem_filter.mpr ⟨?_, ?_⟩
            · exact List.mem_filterMap.mpr ⟨t, htE, namedPair_some t n htn hne⟩
            · rw [hc]
              rfl

theorem namedPairs_created (cid ns : String) (names : List String)
    (h : ∀ n ∈ names, n ≠ "") :
    namedPairs (createdTools cid ns names) = names.map (fun n => (n, localToolId ns n)) := by
  induction names with
  | nil => rfl
  | cons n rest ih =>
      have hn := h n (List.mem_cons_self n rest)
      unfold createdTools
      rw [List.map_cons]
      rw [namedPairs_cons_some _ _ (n, localToolId ns n) (namedPair_some _ n rfl hn)]
      unfold createdTools at ih
      rw [ih (fun x hx => h x (List.mem_cons_of_mem n hx)), List.map_cons]

theorem assoc_after_pass (ns : String → String) (orc : Oracle) (p : PassParams)
    (w : World) (sel : List String)
    (h : EnteredPass orc p w sel) (hnf : NoItemFailures orc)
    (hwf : WellFormedFor w p.connectorId) :
    ((createAgentBuilderTools ns orc p w).1).registry.filter (isAssociated p.connectorId) =
      keptTools w p.connectorId sel ++
        createdTools p.connectorId (ns p.url) (passCrts p w sel) := by
  rw [pass_eq ns orc p w sel h]
  show ((applyCreates orc p.connectorId (ns p.url)
      (applyDeletes orc w.registry (passDels p w sel)).1 (passCrts p w sel)).1).filter
      (isAssociated p.connectorId) = _
  rw [applyCreates_noFail orc p.connectorId (ns p.url) hnf.2,
      applyDeletes_noFail orc hnf.1]
  rw [List.filter_append, filter_assoc_notdel]
  have hct : (passCrts p w sel).map
      (fun n => newTool p.connectorId (localToolId (ns p.url) n) n) =
      createdTools p.connectorId (ns p.url) (passCrts p w sel) := rfl
  rw [hct, filter_assoc_created]
  rw [passDels_eq p w sel hwf, kept_eq w p.connectorId sel hwf]

theorem specToCreate_names (w : World) (cid : String) (sel : List String)
    (hns : ∀ n ∈ sel, n ≠ "") : ∀ n ∈ specToCreate w cid sel, n ≠ "" := by
  intro n hn
  exact hns n ((mem_dedupFirst sel n).mp (List.mem_filter.mp hn).1)

theorem specToCreate_not_projected (w : World) (cid : String) (sel : List String) :
    ∀ n ∈ specToCreate w cid sel, (projectedNames w cid).contains n = false := by
  intro n hn
  have h2 := (List.mem_filter.mp hn).2
  cases hc : (projectedNames w cid).contains n with
  | true => rw [hc] at h2; exact absurd h2 (by simp)
  | false => rfl

theorem namedPairs_append (l1 l2 : List RegistryTool) :
    namedPairs (l1 ++ l2) = namedPairs l1 ++ namedPairs l2 := by
  unfold namedPairs
  exact List.filterMap_append l1 l2 namedPair

theorem keptPair_mem (w : World) (cid : String) (sel : List String) (q : String × String)
    (hq : q ∈ namedPairs (keptTools w cid sel)) :
    q ∈ namedPairs (w.registry.filter (isAssociated cid)) ∧ sel.contains q.fst = true := by
  obtain ⟨t, ht, hq2⟩ := List.mem_filterMap.mp hq
  have htE := List.mem_filter.mp ht
  constructor
  · exact List.mem_filterMap.mpr ⟨t, htE.1, hq2⟩
  · obtain ⟨htn, _, _⟩ := namedPair_inv t q hq2
    have hns := htE.2
    unfold nameSelected at hns
    rw [htn] at hns
    simp only [] at hns
    exact hns

theorem names2_nodup (w : World) (cid nsU : String) (sel : List String)
    (hwf : WellFormedFor w cid) (hns : ∀ n ∈ sel, n ≠ "") :
    ((namedPairs (keptTools w cid sel ++
        createdTools cid nsU (specToCreate w cid sel))).map Prod.fst).Nodup := by
  rw [namedPairs_append,
      namedPairs_created cid nsU (specToCreate w cid sel) (specToCreate_names w cid sel hns),
      List.map_append, List.map_map]
  have hid : (Prod.fst ∘ fun n => (n, localToolId nsU n)) = fun n : String => n := rfl
  rw [hid, List.map_id']
  refine List.nodup_append.mpr ⟨?_, ?_, ?_⟩
  · have hsub : List.Sublist (namedPairs (keptTools w cid sel))
        (namedPairs (w.registry.filter (isAssociated cid))) :=
      List.Sublist.filterMap namedPair (List.filter_sublist _)
    exact List.Nodup.sublist (hsub.map Prod.fst) hwf.2.1
  · exact List.Nodup.sublist (List.filter_sublist _) (nodup_dedupFirst sel)
  · intro a ha hb
    obtain ⟨q, hq, hfst⟩ := List.mem_map.mp ha
    have hproj : a ∈ projectedNames w cid :=
      hfst ▸ List.mem_map_of_mem Prod.fst ((keptPair_mem w cid sel q hq).1)
    have hc := specToCreate_not_projected w cid sel a hb
    exact absurd hproj ((contains_eq_false_iff _ _).mp hc)

theorem pairs2_selected (w : World) (cid nsU : String) (sel : List String)
    (hns : ∀ n ∈ sel, n ≠ "") :
    ∀ q ∈ namedPairs (keptTools w cid sel ++
        createdTools cid nsU (specToCreate w cid sel)),
      (dedupFirst sel).contains q.fst = true := by
  intro q hq
  rw [namedPairs_append,
      namedPairs_created cid nsU (specToCreate w cid sel)
        (specToCreate_names w cid sel hns)] at hq
  rcases List.mem_append.mp hq with hk | hc
  · rw [dedupFirst_contains]
    exact (keptPair_mem w cid sel q hk).2
  · obtain ⟨n, hn, hqe⟩ := List.mem_map.mp hc
    refine (contains_iff_mem _ _).mpr ?_
    rw [← hqe]
    exact (List.mem_filter.mp hn).1

theorem pairs2_covers (w : World) (cid nsU : String) (sel : List String)
    (hns : ∀ n ∈ sel, n ≠ "") :
    ∀ n ∈ dedupFirst sel,
      (namedPairs (keptTools w cid sel ++
          createdTools cid nsU (specToCreate w cid sel))).any
        (fun q => q.fst == n) = true := by
  intro n hn
  rw [namedPairs_append,
      namedPairs_created cid nsU (specToCreate w cid sel)
        (specToCreate_names w cid sel hns)]
  refine List.any_eq_true.mpr ?_
  by_cases hc : (projectedNames w cid).contains n = true
  · have hmem : n ∈ projectedNames w cid := (contains_iff_mem _ _).mp hc
    obtain ⟨q, hq, hfst⟩ := List.mem_map.mp hmem
    obtain ⟨t, ht, hq2⟩ := List.mem_filterMap.mp hq
    obtain ⟨htn, _, _⟩ := namedPair_inv t q hq2
    have hsel : sel.contains q.fst = true := by
      rw [hfst]
      exact (contains_iff_mem _ _).mpr ((mem_dedupFirst sel n).mp hn)
    have hkept : t ∈ keptTools w cid sel := by
      refine List.mem_filter.mpr ⟨ht, ?_⟩
      unfold nameSelected
      rw [htn]
      exact hsel
    refine ⟨q, List.mem_append_left _ (List.mem_filterMap.mpr ⟨t, hkept, hq2⟩), ?_⟩
    exact beq_iff_eq.mpr hfst
  · have hcf : (projectedNames w cid).contains n = false := by
      cases hx : (projectedNames w cid).contains n
      · rfl
      · exact absurd hx hc
    have hcrt : n ∈ specToCreate w cid sel := by
      refine List.mem_filter.mpr ⟨hn, ?_⟩
      rw [hcf]
      rfl
    refine ⟨(n, localToolId nsU n),
      List.mem_append_right _ (List.mem_map_of_mem _ hcrt), ?_⟩
    exact beq_iff_eq.mpr rfl

theorem second_pass_empty (ns : String → String) (orc : Oracle) (p : PassParams)
    (w : World) (sel : List String)
    (h : EnteredPass orc p w sel) (hnf : NoItemFailures orc)
    (hwf : WellFormedFor w p.connectorId) (hns : ∀ n ∈ sel, n ≠ "") :
    passDels p (createAgentBuilderTools ns orc p w).1 sel = [] ∧
    passCrts p (createAgentBuilderTools ns orc p w).1 sel = [] := by
  have hE2 := assoc_after_pass ns orc p w sel h hnf hwf
  rw [passCrts_eq p w sel hwf] at hE2
  have hbn : buildByName []
      (((createAgentBuilderTools ns orc p w).1).registry.filter
        (isAssociated p.connectorId)) =
      namedPairs (keptTools w p.connectorId sel ++
        createdTools p.connectorId (ns p.url) (specToCreate w p.connectorId sel)) := by
    rw [hE2]
    rw [buildByName_eq _ []
      (fun q _ q2 hq2 => absurd hq2 (List.not_mem_nil q2))
      (names2_nodup w p.connectorId (ns p.url) sel hwf hns)]
    exact List.nil_append _
  constructor
  · unfold passDels toDeleteIds
    rw [hbn]
    have hfil : (namedPairs (keptTools w p.connectorId sel ++
        createdTools p.connectorId (ns p.url) (specToCreate w p.connectorId sel))).filter
          (fun q => !(dedupFirst sel).contains q.fst) = [] := by
      refine List.filter_eq_nil_iff.mpr ?_
      intro q hq
      rw [pairs2_selected w p.connectorId (ns p.url) sel hns q hq]
      simp
    rw [hfil]
    rfl
  · unfold passCrts toCreateNames
    rw [hbn]
    refine List.filter_eq_nil_iff.mpr ?_
    intro n hn
    rw [pairs2_covers w p.connectorId (ns p.url) sel hns n hn]
    simp

/-- C1: for an entered pass with no injected failures on a well-formed
registry (unique ids, unique non-empty projected names) and a
selection of non-empty names, the registry operations are exactly one
delete per projected tool whose capability name is no longer selected
and one create (at the deterministic local id) per selected name not
yet projected; and a second pass over the resulting state performs no
registry operation at all (create-if-absent idempotence). -/
theorem c1_reconcile_diff (ns : String → String) (orc : Oracle) (p : PassParams)
    (w : World) (sel : List String)
    (h : EnteredPass orc p w sel) (hnf : NoItemFailures orc)
    (hwf : WellFormedFor w p.connectorId) (hns : ∀ n ∈ sel, n ≠ "") :
    registryOps (createAgentBuilderTools ns orc p w).2.1 =
      (specToDelete w p.connectorId sel).map RegOp.del ++
      (specToCreate w p.connectorId sel).map
        (fun n => RegOp.created (localToolId (ns p.url) n)) ∧
    registryOps (createAgentBuilderTools ns orc p
      (createAgentBuilderTools ns orc p w).1).2.1 = [] := by
  have hda : delAttempt orc = RegOp.del := by
    funext i
    unfold delAttempt
    rw [hnf.1 i]
    simp only [Bool.false_eq_true, if_false]
  have hca : (fun n => createAttempt orc (localToolId (ns p.url) n)) =
      (fun n => RegOp.created (localToolId (ns p.url) n)) := by
    funext n
    unfold createAttempt
    rw [hnf.2 (localToolId (ns p.url) n)]
    simp only [Bool.false_eq_true, if_false]
  constructor
  · rw [pass_registryOps ns orc p w sel h, hda, hca,
        passDels_eq p w sel hwf, passCrts_eq p w sel hwf]
  · obtain ⟨hd2, hc2⟩ := second_pass_empty ns orc p w sel h hnf hwf hns
    have h2 : EnteredPass orc p (createAgentBuilderTools ns orc p w).1 sel := by
      obtain ⟨e1, e2, e3, e4, e5⟩ := h
      refine ⟨e1, e2, e3, ?_, e5⟩
      rw [pass_eq ns orc p w sel ⟨e1, e2, e3, e4, e5⟩]
      exact e4
    rw [pass_registryOps ns orc p _ sel h2, hd2, hc2]
    rfl

theorem c1_reconcile_diff_witness :
    registryOps (createAgentBuilderTools (fun _ => "srv") noFailOracle c1p c1w).2.1 =
      [RegOp.del "mcp.srv.c", RegOp.created "mcp.srv.b"] ∧
    registryOps (createAgentBuilderTools (fun _ => "srv") noFailOracle c1p
      (createAgentBuilderTools (fun _ => "srv") noFailOracle c1p c1w).1).2.1 = [] := by
  have h := c1_reconcile_diff (fun _ => "srv") noFailOracle c1p c1w ["a", "b"]
    ⟨rfl, rfl, List.cons_ne_nil _ _, rfl, rfl⟩
    ⟨fun _ => rfl, fun _ => rfl⟩
    ⟨by decide, by decide, by decide⟩
    (by decide)
  exact ⟨h.1.trans rfl, h.2⟩

theorem writeOps_delAttempts (orc : Oracle) (ids : List String) :
    (ids.map (delAttempt orc)).filter (fun o => !isRegistryOp o) = [] := by
  refine List.filter_eq_nil_iff.mpr ?_
  intro o ho
  obtain ⟨i, _, hi⟩ := List.mem_map.mp ho
  subst hi
  unfold delAttempt isRegistryOp
  split_ifs <;> simp

theorem writeOps_createAttempts (orc : Oracle) (nsU : String) (names : List String) :
    ((names.map (fun n => createAttempt orc (localToolId nsU n))).filter
      (fun o => !isRegistryOp o)) = [] := by
  refine List.filter_eq_nil_iff.mpr ?_
  intro o ho
  obtain ⟨i, _, hi⟩ := List.mem_map.mp ho
  subst hi
  unfold createAttempt isRegistryOp
  split_ifs <;> simp

theorem writeOps_configStep (orc : Oracle) (cid : String) (reg : List RegistryTool)
    (rec : List String) :
    ((configStep orc cid reg rec).2).filter (fun o => !isRegistryOp o) =
      (configStep orc cid reg rec).2 := by
  refine List.filter_eq_self.mpr ?_
  intro o ho
  rw [configStep_writeOnly orc cid reg rec o ho]
  rfl

theorem pass_writeOps (ns : String → String) (orc : Oracle) (p : PassParams)
    (w : World) (sel : List String) (h : EnteredPass orc p w sel) :
    writeOps (createAgentBuilderTools ns orc p w).2.1 =
      (configStep orc p.connectorId
        ((createAgentBuilderTools ns orc p w).1).registry w.createdToolIds).2 := by
  rw [pass_eq ns orc p w sel h]
  show writeOps (_ ++ (_ ++ _)) = _
  unfold writeOps
  rw [List.filter_append, List.filter_append, applyDeletes_ops, applyCreates_ops,
      writeOps_delAttempts, writeOps_createAttempts, writeOps_configStep]
  rw [List.nil_append, List.nil_append]

theorem needUpdate_self (m : List String) : needUpdate m m = false := by
  unfold needUpdate
  rw [bne_self_eq_false]
  rw [List.any_eq_false.mpr ?_]
  · rfl
  · intro x hx
    rw [(contains_iff_mem _ _).mpr hx]
    simp

theorem configStep_eq (orc : Oracle) (cid : String) (reg : List RegistryTool)
    (rec : List String) (ha : orc.actionsAvailable = true)
    (hc : orc.configFails = false) :
    configStep orc cid reg rec =
      (if needUpdate (dedupFirst (rec ++ dedupFirst (assocIds cid reg))) rec
       then (dedupFirst (rec ++ dedupFirst (assocIds cid reg)),
             [RegOp.wroteIds (dedupFirst (rec ++ dedupFirst (assocIds cid reg)))])
       else (rec, [])) := by
  unfold configStep
  rw [ha, hc]
  simp only [Bool.not_true, Bool.false_eq_true, if_false]

theorem configStep_unavailable (orc : Oracle) (cid : String) (reg : List RegistryTool)
    (rec : List String) (h : orc.actionsAvailable = false ∨ orc.configFails = true) :
    (configStep orc cid reg rec).2 = [] := by
  unfold configStep
  rcases h with h | h
  · rw [h]
    rfl
  · rw [h]
    split_ifs with h1 h2
    · rfl
    · rfl
    · exact absurd rfl h2

theorem entered_after (ns : String → String) (orc : Oracle) (p : PassParams)
    (w : World) (sel : List String) (h : EnteredPass orc p w sel) :
    EnteredPass orc p (createAgentBuilderTools ns orc p w).1 sel := by
  obtain ⟨e1, e2, e3, e4, e5⟩ := h
  refine ⟨e1, e2, e3, ?_, e5⟩
  rw [pass_eq ns orc p w sel ⟨e1, e2, e3, e4, e5⟩]
  exact e4

theorem second_pass_registry (ns : String → String) (orc : Oracle) (p : PassParams)
    (w : World) (sel : List String)
    (h : EnteredPass orc p w sel) (hnf : NoItemFailures orc)
    (hwf : WellFormedFor w p.connectorId) (hns : ∀ n ∈ sel, n ≠ "") :
    ((createAgentBuilderTools ns orc p (createAgentBuilderTools ns orc p w).1).1).registry =
      ((createAgentBuilderTools ns orc p w).1).registry := by
  obtain ⟨hd2, hc2⟩ := second_pass_empty ns orc p w sel h hnf hwf hns
  rw [pass_eq ns orc p _ sel (entered_after ns orc p w sel h)]
  show (applyCreates orc p.connectorId (ns p.url)
      (applyDeletes orc _ (passDels p _ sel)).1 (passCrts p _ sel)).1 = _
  rw [hd2, hc2]
  rfl

theorem configStep_mem_write (orc : Oracle) (cid : String) (reg : List RegistryTool)
    (rec : List String) (ids : List String)
    (hmem : RegOp.wroteIds ids ∈ (configStep orc cid reg rec).2) :
    ids = dedupFirst (rec ++ dedupFirst (assocIds cid reg)) := by
  cases hav : orc.actionsAvailable with
  | false =>
      rw [configStep_unavailable orc cid reg rec (Or.inl hav)] at hmem
      exact absurd hmem (List.not_mem_nil _)
  | true =>
      cases hcf : orc.configFails with
      | true =>
          rw [configStep_unavailable orc cid reg rec (Or.inr hcf)] at hmem
          exact absurd hmem (List.not_mem_nil _)
      | false =>
          rw [configStep_eq orc cid reg rec hav hcf] at hmem
          by_cases hnu : needUpdate (dedupFirst (rec ++ dedupFirst (assocIds cid reg)))
              rec = true
          · rw [if_pos hnu] at hmem
            dsimp only at hmem
            rw [List.mem_singleton] at hmem
            exact RegOp.wroteIds.inj hmem
          · rw [if_neg hnu] at hmem
            dsimp only at hmem
            exact absurd hmem (List.not_mem_nil _)

theorem configStep_stable (orc : Oracle) (cid : String) (reg : List RegistryTool)
    (rec : List String) (hav : orc.actionsAvailable = true)
    (hcf : orc.configFails = false) :
    (configStep orc cid reg (configStep orc cid reg rec).1).2 = [] := by
  rw [configStep_eq orc cid reg rec hav hcf]
  by_cases hnu : needUpdate (dedupFirst (rec ++ dedupFirst (assocIds cid reg))) rec = true
  · rw [if_pos hnu]
    dsimp only
    rw [configStep_eq orc cid reg _ hav hcf]
    have hsub : ∀ x ∈ dedupFirst (assocIds cid reg),
        x ∈ dedupFirst (rec ++ dedupFirst (assocIds cid reg)) := by
      intro x hx
      exact (mem_dedupFirst _ _).mpr (List.mem_append_right _ hx)
    rw [dedupFirst_append_subset _ _ hsub]
    rw [dedupFirst_eq_self _ (nodup_dedupFirst _)]
    rw [if_neg ?_]
    rw [needUpdate_self]
    exact Bool.false_ne_true
  · rw [if_neg hnu]
    dsimp only
    rw [configStep_eq orc cid reg rec hav hcf, if_neg hnu]

theorem pass_createdIds (ns : String → String) (orc : Oracle) (p : PassParams)
    (w : World) (sel : List String) (h : EnteredPass orc p w sel) :
    ((createAgentBuilderTools ns orc p w).1).createdToolIds =
      (configStep orc p.connectorId ((createAgentBuilderTools ns orc p w).1).registry
        w.createdToolIds).1 := by
  rw [pass_eq ns orc p w sel h]

/-- C2 counterexample: deselecting c (selection now only a) deletes the
tool c, so the currently projected ids are exactly [mcp.srv.a], yet
the pass writes back the merged list [mcp.srv.c, mcp.srv.a] — the
deselected id is retained, so the written list is not exactly the
current projected ids. -/
theorem c2_counterexample :
    (createAgentBuilderTools (fun _ => "srv") noFailOracle c2p c2w).2.1 =
      [RegOp.del "mcp.srv.c", RegOp.created "mcp.srv.a",
       RegOp.wroteIds ["mcp.srv.c", "mcp.srv.a"]] ∧
    assocIds "conn-1"
        ((createAgentBuilderTools (fun _ => "srv") noFailOracle c2p c2w).1).registry =
      ["mcp.srv.a"] :=
  ⟨rfl, rfl⟩

/-- C2 amended: the id list written back is the deduplicated union of
the previously recorded list with the ids of the currently projected
tools (a previously recorded deselected id is retained, not removed);
the write happens only when that union differs from the recorded list,
and a second pass with the same selection performs no write at all. -/
theorem c2_write_union (ns : String → String) (orc : Oracle) (p : PassParams)
    (w : World) (sel : List String)
    (h : EnteredPass orc p w sel) (hnf : NoItemFailures orc)
    (hwf : WellFormedFor w p.connectorId) (hns : ∀ n ∈ sel, n ≠ "") :
    (∀ ids, RegOp.wroteIds ids ∈ (createAgentBuilderTools ns orc p w).2.1 →
      ids = dedupFirst (w.createdToolIds ++
        dedupFirst (assocIds p.connectorId
          ((createAgentBuilderTools ns orc p w).1).registry))) ∧
    writeOps (createAgentBuilderTools ns orc p
      (createAgentBuilderTools ns orc p w).1).2.1 = [] := by
  constructor
  · intro ids hmem
    rw [pass_eq ns orc p w sel h] at hmem ⊢
    dsimp only at hmem ⊢
    rcases List.mem_append.mp hmem with hd | hcc
    · rw [applyDeletes_ops] at hd
      obtain ⟨i, _, hi⟩ := List.mem_map.mp hd
      unfold delAttempt at hi
      split_ifs at hi
    · rcases List.mem_append.mp hcc with hc | hcfg
      · rw [applyCreates_ops] at hc
        obtain ⟨i, _, hi⟩ := List.mem_map.mp hc
        unfold createAttempt at hi
        split_ifs at hi
      · exact configStep_mem_write orc p.connectorId _ w.createdToolIds ids hcfg
  · rw [pass_writeOps ns orc p _ sel (entered_after ns orc p w sel h)]
    rw [second_pass_registry ns orc p w sel h hnf hwf hns]
    cases hav : orc.actionsAvailable with
    | false => exact configStep_unavailable orc _ _ _ (Or.inl hav)
    | true =>
        cases hcf : orc.configFails with
        | true => exact configStep_unavailable orc _ _ _ (Or.inr hcf)
        | false =>
            rw [pass_createdIds ns orc p w sel h]
            exact configStep_stable orc p.connectorId _ w.createdToolIds hav hcf

theorem c2_write_union_witness :
    (∀ ids, RegOp.wroteIds ids ∈
        (createAgentBuilderTools (fun _ => "srv") noFailOracle c2p c2w).2.1 →
      ids = dedupFirst (c2w.createdToolIds ++
        dedupFirst (assocIds "conn-1"
          ((createAgentBuilderTools (fun _ => "srv") noFailOracle c2p c2w).1).registry))) ∧
    writeOps (createAgentBuilderTools (fun _ => "srv") noFailOracle c2p
      (createAgentBuilderTools (fun _ => "srv") noFailOracle c2p c2w).1).2.1 = [] :=
  c2_write_union (fun _ => "srv") noFailOracle c2p c2w ["a"]
    ⟨rfl, rfl, List.cons_ne_nil _ _, rfl, rfl⟩
    ⟨fun _ => rfl, fun _ => rfl⟩
    ⟨by decide, by decide, by decide⟩
    (by decide)
